import Mathlib

/-!
Shallow embedding of the Pictorus PX4 module-shim relay
(`src/px4-workspace/module-shim/src/modules/pictorus_module/pictorus_module.cpp`).

Topics are identified by opaque `orb_id_t` pointers compared by identity; we
model them as natural numbers.  The external uORB bus and the Rust engine are
modelled by environments of response functions: `orb_subscribe` returns an
`Int` handle (negative on failure), `orb_check` / `orb_copy` succeed or fail
per topic, and the per-topic "updated" flag is explicit mutable state that is
consumed by a successful `orb_copy` (modelled from the spec: the bus updated
flag remains set until consumed).  FFI calls that the C++ only compares
against `FFI_SUCCESS` are modelled as `Option` results (`none` = any
non-success status).  Observable calls and log lines the claims talk about are
recorded as an event trace.
-/

/-- Opaque topic identifier (`orb_id_t`), compared by identity. -/
abbrev OrbId := Nat

/-- `MAX_MESSAGES` from pictorus_module.cpp line 30. -/
def MAX_MESSAGES : Nat := 16

/-- `MAX_MESSAGE_SIZE` from pictorus_module.cpp line 31 (bytes). -/
def MAX_MESSAGE_SIZE : Nat := 1024

/-- `LOOP_INTERVAL_US` from pictorus_module.cpp line 32 (10ms loop interval). -/
def LOOP_INTERVAL_US : Nat := 10000

/-- Observable events of one relay invocation: bus/engine calls and the error
logs the claims mention.  `visit i` marks that the per-index loop body was
entered for index `i`. -/
inductive Event where
  | visit (i : Nat)
  | errCount
  | errIdResolve (i : Nat)
  | create (t : OrbId)
  | errTooMany
  | busCheck (t : OrbId)
  | errOversize (t : OrbId)
  | busCopy (t : OrbId)
  | writeInput (t : OrbId) (len : Nat)
  | errWrite (t : OrbId)
  | errHasUpdate (t : OrbId)
  | readOutput (t : OrbId)
  | errRead (t : OrbId)
  | errSizeMismatch (t : OrbId)
  | publish (t : OrbId)
deriving DecidableEq, Repr

/-- The uORB bus as seen by the module: `orb_subscribe` result per topic
(negative = failure, line 37-42), and whether `orb_check` / `orb_copy`
succeed (return `>= 0`) for the handle bound to each topic. -/
structure OrbBus where
  subResult : OrbId → Int
  checkOk : OrbId → Bool
  copyOk : OrbId → Bool

/-- Per-topic pending-update flags of the bus (the state `orb_check` reports
and a successful `orb_copy` consumes). -/
abbrev UpdFlags := OrbId → Bool

/-- `OrbSubscription` (lines 34-93): topic id (`nullptr` initially) and the
`int` subscription handle (`-1` = invalid). -/
structure OrbSubscription where
  id_ : Option OrbId := none
  handle_ : Int := -1
deriving DecidableEq, Repr

/-- `OrbSubscription::is_valid` (line 76): `handle_ >= 0`. -/
def OrbSubscription.is_valid (s : OrbSubscription) : Bool :=
  decide (0 ≤ s.handle_)

/-- The explicit constructor `OrbSubscription(orb_id_t id)` (lines 37-42):
subscribe at the bus; on failure (negative return) the handle is set to `-1`
and the binding is invalid. -/
def mk_subscription (bus : OrbBus) (t : OrbId) : OrbSubscription :=
  { id_ := some t
    handle_ := if bus.subResult t < 0 then -1 else bus.subResult t }

/-- `OrbSubscription::check_updated` (lines 79-83): an invalid binding
returns `false` without calling the bus; otherwise `orb_check` is called and
the result is success-and-updated. -/
def OrbSubscription.check_updated (s : OrbSubscription) (bus : OrbBus)
    (upd : UpdFlags) : Bool × List Event :=
  if s.is_valid then
    match s.id_ with
    | some t => (bus.checkOk t && upd t, [Event.busCheck t])
    | none => (false, [])
  else (false, [])

/-- `OrbSubscription::copy_data` (lines 85-88): an invalid binding returns
`false` without calling the bus; otherwise `orb_copy` is called; on success
the payload is copied into the buffer and the topic's pending flag is
consumed. -/
def OrbSubscription.copy_data (s : OrbSubscription) (bus : OrbBus)
    (upd : UpdFlags) : Bool × UpdFlags × List Event :=
  if s.is_valid then
    match s.id_ with
    | some t =>
      if bus.copyOk t then
        (true, fun x => if x = t then false else upd x, [Event.busCopy t])
      else (false, upd, [Event.busCopy t])
    | none => (false, upd, [])
  else (false, upd, [])

/-- `OrbPublication` (lines 96-118): topic id and the advert handle,
abstracted to its only observable property `handle_ != nullptr`. -/
structure OrbPublication where
  id_ : Option OrbId := none
  advert_ok : Bool := false
deriving DecidableEq, Repr

/-- `OrbPublication::is_valid` (line 107). -/
def OrbPublication.is_valid (p : OrbPublication) : Bool :=
  p.advert_ok

/-- The explicit constructor `OrbPublication(orb_id_t id, initial_data)`
(lines 99-104): advertise at the bus (success recorded per topic in the
output environment). -/
def mk_publication (advOk : OrbId → Bool) (t : OrbId) : OrbPublication :=
  { id_ := some t, advert_ok := advOk t }

namespace Pool

variable {α : Type}

/-- Topics of the valid bindings currently stored in a pool, in slot order. -/
def validIds (valid : α → Bool) (idOf : α → Option OrbId) (pool : List α) :
    List OrbId :=
  pool.filterMap fun s => if valid s then idOf s else none

/-- The write `slots[i] = mk(...)` into the first invalid slot performed by
the second scan of `ensure_subscription` / `ensure_publication`. -/
def replaceFirstInvalid (valid : α → Bool) (nu : α) : List α → List α
  | [] => []
  | s :: rest =>
    if valid s then s :: replaceFirstInvalid valid nu rest else nu :: rest

/-- The shared pool algorithm of `InputManager::ensure_subscription`
(lines 170-190) and `OutputManager::ensure_publication` (lines 270-290):
scan for a valid binding with the requested id; otherwise create a new
binding in the first invalid slot; otherwise log a capacity error and return
the fixed default-constructed invalid sentinel `inval`.  Returns the new
pool, the returned binding, and the events. -/
def ensure (valid : α → Bool) (idOf : α → Option OrbId) (mk : OrbId → α)
    (inval : α) (pool : List α) (t : OrbId) : List α × α × List Event :=
  match pool.find? (fun s => valid s && decide (idOf s = some t)) with
  | some s => (pool, s, [])
  | none =>
    if pool.any (fun s => !valid s) then
      (replaceFirstInvalid valid (mk t) pool, mk t, [Event.create t])
    else (pool, inval, [Event.errTooMany])

end Pool

/-- `InputManager::ensure_subscription` (lines 170-190). -/
def ensure_subscription (bus : OrbBus) (pool : List OrbSubscription)
    (t : OrbId) : List OrbSubscription × OrbSubscription × List Event :=
  Pool.ensure OrbSubscription.is_valid OrbSubscription.id_
    (mk_subscription bus) {} pool t

/-- `OutputManager::ensure_publication` (lines 270-290); the initial payload
passed at advertisement time carries no information our claims track. -/
def ensure_publication (advOk : OrbId → Bool) (pool : List OrbPublication)
    (t : OrbId) : List OrbPublication × OrbPublication × List Event :=
  Pool.ensure OrbPublication.is_valid OrbPublication.id_
    (mk_publication advOk) {} pool t

/-- The Rust FFI environment of the input relay plus the `o_size` metadata
field read from `orb_metadata` (line 144): reported input count
(`none` = non-success status), per-index topic resolution, declared topic
sizes, and whether `rust_write_input_message` returns success. -/
structure RustInputs where
  input_count : Option Nat
  input_id : Nat → Option OrbId
  o_size : OrbId → Nat
  write_ok : OrbId → Bool

/-- One iteration of the loop of `InputManager::process_input_messages`
(lines 133-163): resolve the id (failure logged, index skipped); ensure the
subscription; if it reports a fresh update, validate the declared size
against `MAX_MESSAGE_SIZE` (oversize logged, skipped), copy the payload and
hand it to `rust_write_input_message` (write failure logged). -/
def inputStep (bus : OrbBus) (eng : RustInputs) (upd : UpdFlags)
    (pool : List OrbSubscription) (i : Nat) :
    UpdFlags × List OrbSubscription × List Event :=
  match eng.input_id i with
  | none => (upd, pool, [Event.visit i, Event.errIdResolve i])
  | some t =>
    let r := ensure_subscription bus pool t
    let c := r.2.1.check_updated bus upd
    if c.1 then
      if MAX_MESSAGE_SIZE < eng.o_size t then
        (upd, r.1, Event.visit i :: (r.2.2 ++ c.2 ++ [Event.errOversize t]))
      else
        let cp := r.2.1.copy_data bus upd
        if cp.1 then
          (cp.2.1, r.1, Event.visit i :: (r.2.2 ++ c.2 ++ cp.2.2 ++
            Event.writeInput t (eng.o_size t) ::
              (if eng.write_ok t then [] else [Event.errWrite t])))
        else (cp.2.1, r.1, Event.visit i :: (r.2.2 ++ c.2 ++ cp.2.2))
    else (upd, r.1, Event.visit i :: (r.2.2 ++ c.2))

/-- The `for` loop of `process_input_messages` over a list of indices. -/
def inputLoop (bus : OrbBus) (eng : RustInputs) :
    UpdFlags → List OrbSubscription → List Nat →
    UpdFlags × List OrbSubscription × List Event
  | upd, pool, [] => (upd, pool, [])
  | upd, pool, i :: rest =>
    let r := inputStep bus eng upd pool i
    let rr := inputLoop bus eng r.1 r.2.1 rest
    (rr.1, rr.2.1, r.2.2 ++ rr.2.2)

/-- `InputManager::process_input_messages` (lines 123-165): a failing count
query logs and returns; `assert(input_count <= MAX_MESSAGES)` (line 131)
aborts (debug `<cassert>` semantics, modelled as `none`) when the reported
count exceeds the bound; otherwise the per-index loop runs. -/
def process_input_messages (bus : OrbBus) (eng : RustInputs) (upd : UpdFlags)
    (pool : List OrbSubscription) :
    Option (UpdFlags × List OrbSubscription × List Event) :=
  match eng.input_count with
  | none => some (upd, pool, [Event.errCount])
  | some n =>
    if n ≤ MAX_MESSAGES then some (inputLoop bus eng upd pool (List.range n))
    else none

/-- The Rust FFI environment of the output relay plus metadata and bus
advertisement behaviour: reported output count, per-index topic resolution,
declared sizes, `rust_output_message_has_update` result (`none` = FFI
failure), `rust_read_output_message` result (`none` = non-success status,
`some b` = success with `bytes_written = b`; modelled stateless within one
cycle), and whether `orb_advertise` succeeds per topic. -/
structure RustOutputs where
  output_count : Option Nat
  output_id : Nat → Option OrbId
  o_size : OrbId → Nat
  has_update : OrbId → Option Bool
  read_result : OrbId → Option Nat
  advertise_ok : OrbId → Bool

/-- One iteration of the loop of `OutputManager::process_output_messages`
(lines 208-264): resolve the id; ask Rust whether the topic has an update;
validate the declared size; read from Rust (`bytes_read` must equal the
declared size, otherwise a size-mismatch error is logged and the publish is
skipped); ensure the publication and publish when the binding is valid. -/
def outputStep (eng : RustOutputs) (pubs : List OrbPublication) (i : Nat) :
    List OrbPublication × List Event :=
  match eng.output_id i with
  | none => (pubs, [Event.visit i, Event.errIdResolve i])
  | some t =>
    match eng.has_update t with
    | none => (pubs, [Event.visit i, Event.errHasUpdate t])
    | some false => (pubs, [Event.visit i])
    | some true =>
      if MAX_MESSAGE_SIZE < eng.o_size t then
        (pubs, [Event.visit i, Event.errOversize t])
      else
        match eng.read_result t with
        | none => (pubs, [Event.visit i, Event.readOutput t, Event.errRead t])
        | some bytes =>
          if bytes = eng.o_size t then
            let r := ensure_publication eng.advertise_ok pubs t
            if r.2.1.is_valid then
              (r.1, Event.visit i :: Event.readOutput t ::
                (r.2.2 ++ [Event.publish t]))
            else (r.1, Event.visit i :: Event.readOutput t :: r.2.2)
          else
            (pubs, [Event.visit i, Event.readOutput t,
              Event.errSizeMismatch t])

/-- The `for` loop of `process_output_messages` over a list of indices. -/
def outputLoop (eng : RustOutputs) :
    List OrbPublication → List Nat → List OrbPublication × List Event
  | pubs, [] => (pubs, [])
  | pubs, i :: rest =>
    let r := outputStep eng pubs i
    let rr := outputLoop eng r.1 rest
    (rr.1, r.2 ++ rr.2)

/-- `OutputManager::process_output_messages` (lines 195-265), with the
`assert(output_count <= MAX_MESSAGES)` (line 206) modelled as `none`. -/
def process_output_messages (eng : RustOutputs)
    (pubs : List OrbPublication) :
    Option (List OrbPublication × List Event) :=
  match eng.output_count with
  | none => some (pubs, [Event.errCount])
  | some n =>
    if n ≤ MAX_MESSAGES then some (outputLoop eng pubs (List.range n))
    else none

/-- The argument of `px4_usleep` at line 429:
`LOOP_INTERVAL_US - (hrt_absolute_time() - loop_start_time)` evaluated in
C unsigned 64-bit arithmetic (`hrt_abstime` is a 64-bit microsecond counter,
as the `uint64_t app_time` parameter of `app_interface_update` in pictorus.h
shows; the `unsigned int` constant is promoted to it).  `elapsed` is the
cycle's elapsed time in microseconds. -/
def sleep_arg_us (elapsed : Nat) : Nat :=
  (LOOP_INTERVAL_US + 2 ^ 64 - elapsed % 2 ^ 64) % 2 ^ 64

/-- Event classifiers used to count per-topic transfer attempts. -/
def isCopyFor (t : OrbId) : Event → Bool
  | Event.busCopy x => decide (x = t)
  | _ => false

/-- Classifier for `rust_write_input_message` calls for topic `t`. -/
def isWriteFor (t : OrbId) : Event → Bool
  | Event.writeInput x _ => decide (x = t)
  | _ => false

/-- Classifier for `rust_read_output_message` calls for topic `t`. -/
def isReadFor (t : OrbId) : Event → Bool
  | Event.readOutput x => decide (x = t)
  | _ => false

/-- Classifier for `orb_publish` calls for topic `t`. -/
def isPublishFor (t : OrbId) : Event → Bool
  | Event.publish x => decide (x = t)
  | _ => false

namespace Pool

variable {α : Type} (valid : α → Bool) (idOf : α → Option OrbId) (mk : OrbId → α) (inval : α)

/-- Repeated `ensure` calls, as the relays perform them across cycles. -/
def ensureAll : List α → List OrbId → List α
  | pool, [] => pool
  | pool, t :: rest => ensureAll (ensure valid idOf mk inval pool t).1 rest

lemma length_replaceFirstInvalid (nu : α) (pool : List α) :
    (replaceFirstInvalid valid nu pool).length = pool.length := by
  induction pool with
  | nil => rfl
  | cons s rest ih => by_cases h : valid s <;> simp [replaceFirstInvalid, h, ih]

lemma length_ensure (pool : List α) (t : OrbId) :
    (ensure valid idOf mk inval pool t).1.length = pool.length := by
  unfold ensure
  cases hf : pool.find? (fun s => valid s && decide (idOf s = some t)) with
  | some s => rfl
  | none =>
    by_cases h : pool.any (fun s => !valid s) <;>
      simp [h, length_replaceFirstInvalid]

lemma countP_replaceFirstInvalid_le (nu : α) (pool : List α) :
    (replaceFirstInvalid valid nu pool).countP valid ≤ pool.countP valid + 1 := by
  induction pool with
  | nil => simp [replaceFirstInvalid]
  | cons s rest ih =>
    by_cases h : valid s <;>
      by_cases hnu : valid nu <;>
        simp [replaceFirstInvalid, h, List.countP_cons, hnu] <;> omega

lemma countP_ensure_le (pool : List α) (t : OrbId) :
    (ensure valid idOf mk inval pool t).1.countP valid ≤
      pool.countP valid + 1 := by
  unfold ensure
  cases hf : pool.find? (fun s => valid s && decide (idOf s = some t)) with
  | some s => simp
  | none =>
    by_cases h : pool.any (fun s => !valid s) <;> simp [h]
    · exact countP_replaceFirstInvalid_le valid (mk t) pool

lemma any_invalid_of_countP_lt (pool : List α)
    (h : pool.countP valid < pool.length) :
    pool.any (fun s => !valid s) = true := by
  by_contra hc
  have hall : ∀ s ∈ pool, valid s = true := by
    intro s hs
    have := (List.any_eq_false).1 (Bool.eq_false_iff.2 hc) s hs
    simpa using this
  have := (List.countP_eq_length (p := valid)).2 hall
  omega

lemma mem_validIds {pool : List α} {x : OrbId} :
    x ∈ validIds valid idOf pool ↔
      ∃ s, s ∈ pool ∧ valid s = true ∧ idOf s = some x := by
  simp only [validIds, List.mem_filterMap]
  constructor
  · rintro ⟨s, hs, hx⟩
    by_cases h : valid s
    · exact ⟨s, hs, h, by simpa [h] using hx⟩
    · simp [h] at hx
  · rintro ⟨s, hs, hv, hx⟩
    exact ⟨s, hs, by simp [hv, hx]⟩

lemma validIds_length_eq_countP (pool : List α)
    (hwf : ∀ s ∈ pool, valid s = true → (idOf s).isSome = true) :
    (validIds valid idOf pool).length = pool.countP valid := by
  induction pool with
  | nil => simp [validIds]
  | cons s rest ih =>
    have hrest := ih (fun a ha hv => hwf a (List.mem_cons_of_mem s ha) hv)
    by_cases h : valid s
    · have hsome : (idOf s).isSome = true := hwf s (List.mem_cons_self s rest) h
      obtain ⟨a, ha⟩ := Option.isSome_iff_exists.1 hsome
      simp [validIds, List.filterMap_cons, h, ha, List.countP_cons, ← hrest]
    · simp [validIds, List.filterMap_cons, h, List.countP_cons, ← hrest]

lemma mem_replaceFirstInvalid (nu : α) (pool : List α) :
    ∀ s ∈ replaceFirstInvalid valid nu pool, s ∈ pool ∨ s = nu := by
  induction pool with
  | nil => simp [replaceFirstInvalid]
  | cons a rest ih =>
    intro s hs
    by_cases h : valid a
    · simp only [replaceFirstInvalid, h, if_pos, List.mem_cons] at hs
      rcases hs with hs | hs
      · exact Or.inl (by simp [hs])
      · rcases ih s hs with h' | h'
        · exact Or.inl (List.mem_cons_of_mem a h')
        · exact Or.inr h'
    · simp only [replaceFirstInvalid, h, if_neg, Bool.false_eq_true,
        not_false_iff, List.mem_cons] at hs
      rcases hs with hs | hs
      · exact Or.inr hs
      · exact Or.inl (List.mem_cons_of_mem a hs)

lemma validIds_replaceFirstInvalid_perm (nu : α) (t : OrbId)
    (hv : valid nu = true) (hid : idOf nu = some t) :
    ∀ pool : List α, pool.any (fun s => !valid s) = true →
    (validIds valid idOf (replaceFirstInvalid valid nu pool)).Perm
      (t :: validIds valid idOf pool) := by
  intro pool h
  induction pool with
  | nil => simp at h
  | cons s rest ih =>
    by_cases hs : valid s
    · have hrest : rest.any (fun s => !valid s) = true := by
        simpa [hs] using h
      have hperm := ih hrest
      cases ha : idOf s with
      | none =>
        simpa [replaceFirstInvalid, hs, validIds, List.filterMap_cons, ha]
          using hperm
      | some a =>
        have : (validIds valid idOf (replaceFirstInvalid valid nu
            (s :: rest))) = a :: validIds valid idOf
              (replaceFirstInvalid valid nu rest) := by
          simp [replaceFirstInvalid, hs, validIds, List.filterMap_cons, ha]
        rw [this]
        have h2 : validIds valid idOf (s :: rest) =
            a :: validIds valid idOf rest := by
          simp [validIds, List.filterMap_cons, hs, ha]
        rw [h2]
        exact (hperm.cons a).trans (List.Perm.swap t a _)
    · have h1 : replaceFirstInvalid valid nu (s :: rest) = nu :: rest := by
        simp [replaceFirstInvalid, hs]
      have h2 : validIds valid idOf (s :: rest) = validIds valid idOf rest := by
        simp [validIds, List.filterMap_cons, hs]
      rw [h1, h2]
      simp [validIds, List.filterMap_cons, hv, hid]

end Pool

namespace Pool

variable {α : Type} (valid : α → Bool) (idOf : α → Option OrbId) (mk : OrbId → α) (inval : α)

lemma find?_eq_none_of_not_mem_validIds {pool : List α} {t : OrbId}
    (h : t ∉ validIds valid idOf pool) :
    pool.find? (fun s => valid s && decide (idOf s = some t)) = none := by
  rw [List.find?_eq_none]
  intro s hs hp
  simp only [Bool.and_eq_true, decide_eq_true_eq] at hp
  exact h ((mem_validIds valid idOf).2 ⟨s, hs, hp.1, hp.2⟩)

lemma exists_find?_of_mem_validIds {pool : List α} {t : OrbId}
    (h : t ∈ validIds valid idOf pool) :
    ∃ s, pool.find? (fun s => valid s && decide (idOf s = some t)) = some s ∧
      valid s = true ∧ idOf s = some t := by
  obtain ⟨s, hs, hv, hid⟩ := (mem_validIds valid idOf).1 h
  have : pool.find? (fun s => valid s && decide (idOf s = some t)) ≠ none := by
    intro hc
    exact absurd (List.find?_eq_none.1 hc s hs) (by simp [hv, hid])
  obtain ⟨s', hs'⟩ := Option.ne_none_iff_exists'.1 this
  have hp := List.find?_some hs'
  simp only [Bool.and_eq_true, decide_eq_true_eq] at hp
  exact ⟨s', hs', hp.1, hp.2⟩

/-- When the pool holds a valid binding for `t` or has a free slot, `ensure`
returns a valid binding for `t` (the found one or the freshly created one,
provided creation succeeds for `t`). -/
lemma ensure_returns_valid (pool : List α) (t : OrbId)
    (hmkv : valid (mk t) = true) (hmki : idOf (mk t) = some t)
    (hroom : pool.countP valid < pool.length ∨ t ∈ validIds valid idOf pool) :
    valid (ensure valid idOf mk inval pool t).2.1 = true ∧
      idOf (ensure valid idOf mk inval pool t).2.1 = some t := by
  unfold ensure
  by_cases hmem : t ∈ validIds valid idOf pool
  · obtain ⟨s, hfind, hv, hid⟩ := exists_find?_of_mem_validIds valid idOf hmem
    rw [hfind]
    exact ⟨hv, hid⟩
  · rw [find?_eq_none_of_not_mem_validIds valid idOf hmem]
    have hlt : pool.countP valid < pool.length := hroom.resolve_right hmem
    rw [if_pos (any_invalid_of_countP_lt valid pool hlt)]
    exact ⟨hmkv, hmki⟩

/-- The events `ensure` can log: nothing (binding found), the
creation call, or the capacity error. -/
lemma ensure_events (pool : List α) (t : OrbId) :
    (ensure valid idOf mk inval pool t).2.2 = [] ∨
    (ensure valid idOf mk inval pool t).2.2 = [Event.create t] ∨
    (ensure valid idOf mk inval pool t).2.2 = [Event.errTooMany] := by
  unfold ensure
  cases pool.find? (fun s => valid s && decide (idOf s = some t)) with
  | some s => simp
  | none => by_cases h : pool.any (fun s => !valid s) <;> simp [h]

/-- With a free slot available, `ensure` does not hit the capacity branch. -/
lemma ensure_events_of_room (pool : List α) (t : OrbId)
    (hroom : pool.countP valid < pool.length ∨ t ∈ validIds valid idOf pool) :
    (ensure valid idOf mk inval pool t).2.2 = [] ∨
    (ensure valid idOf mk inval pool t).2.2 = [Event.create t] := by
  unfold ensure
  by_cases hmem : t ∈ validIds valid idOf pool
  · obtain ⟨s, hfind, hv, hid⟩ := exists_find?_of_mem_validIds valid idOf hmem
    rw [hfind]; simp
  · rw [find?_eq_none_of_not_mem_validIds valid idOf hmem]
    have hlt : pool.countP valid < pool.length := hroom.resolve_right hmem
    rw [if_pos (any_invalid_of_countP_lt valid pool hlt)]
    simp

lemma mem_validIds_replaceFirstInvalid_of_mem (nu : α) {pool : List α}
    {x : OrbId} (hx : x ∈ validIds valid idOf pool) :
    x ∈ validIds valid idOf (replaceFirstInvalid valid nu pool) := by
  induction pool with
  | nil => simp [validIds] at hx
  | cons s rest ih =>
    by_cases h : valid s
    · simp only [validIds, List.filterMap_cons, h, if_pos] at hx ⊢
      simp only [replaceFirstInvalid, h, if_pos, List.filterMap_cons]
      cases ha : idOf s with
      | none =>
        simp only [ha] at hx ⊢
        exact ih hx
      | some a =>
        simp only [ha, List.mem_cons] at hx ⊢
        rcases hx with hx | hx
        · exact Or.inl hx
        · exact Or.inr (ih hx)
    · simp only [validIds, List.filterMap_cons, h, Bool.false_eq_true,
        if_neg, not_false_iff] at hx
      simp only [replaceFirstInvalid, h, Bool.false_eq_true, if_neg,
        not_false_iff, validIds, List.filterMap_cons]
      cases hnu : (if valid nu then idOf nu else none) with
      | none => exact hx
      | some a => exact List.mem_cons_of_mem a hx

/-- Valid bindings are never displaced: a topic bound in the pool is still
bound after any `ensure` call. -/
lemma mem_validIds_ensure_of_mem (pool : List α) (t : OrbId) {x : OrbId}
    (hx : x ∈ validIds valid idOf pool) :
    x ∈ validIds valid idOf (ensure valid idOf mk inval pool t).1 := by
  unfold ensure
  cases pool.find? (fun s => valid s && decide (idOf s = some t)) with
  | some s => exact hx
  | none =>
    by_cases h : pool.any (fun s => !valid s) <;> simp [h]
    · exact mem_validIds_replaceFirstInvalid_of_mem valid idOf (mk t) hx
    · exact hx

end Pool

namespace Pool

variable {α : Type} (valid : α → Bool) (idOf : α → Option OrbId) (mk : OrbId → α) (inval : α)

/-- Main pool invariant: starting from a well-formed pool whose valid
bindings are exactly the already-processed topics, a further sequence of
`ensure` calls (each of whose creations succeeds) keeps the pool
well-formed, of fixed length, duplicate-free, and binding exactly the
processed-so-far topics — as long as the distinct topics fit the
capacity. -/
theorem ensureAll_invariant :
    ∀ (calls processed : List OrbId) (pool : List α),
    (∀ t ∈ calls, valid (mk t) = true ∧ idOf (mk t) = some t) →
    (∀ s ∈ pool, valid s = true → (idOf s).isSome = true) →
    pool.length = MAX_MESSAGES →
    (validIds valid idOf pool).Nodup →
    (∀ x, x ∈ validIds valid idOf pool ↔ x ∈ processed) →
    (processed ++ calls).toFinset.card ≤ MAX_MESSAGES →
    (∀ s ∈ ensureAll valid idOf mk inval pool calls, valid s = true →
      (idOf s).isSome = true) ∧
    (ensureAll valid idOf mk inval pool calls).length = MAX_MESSAGES ∧
    (validIds valid idOf (ensureAll valid idOf mk inval pool calls)).Nodup ∧
    (∀ x, x ∈ validIds valid idOf (ensureAll valid idOf mk inval pool calls) ↔
      x ∈ processed ++ calls) := by
  intro calls
  induction calls with
  | nil =>
    intro processed pool _ hwf hlen hnd hmem _
    refine ⟨hwf, hlen, hnd, ?_⟩
    simpa using hmem
  | cons t rest ih =>
    intro processed pool hmk hwf hlen hnd hmem hcard
    by_cases hin : t ∈ validIds valid idOf pool
    · obtain ⟨s, hfind, hv, hid⟩ := exists_find?_of_mem_validIds valid idOf hin
      have hstep : (ensure valid idOf mk inval pool t).1 = pool := by
        unfold ensure
        rw [hfind]
      have hmem' : ∀ x, x ∈ validIds valid idOf pool ↔
          x ∈ processed ++ [t] := by
        intro x
        rw [hmem x]
        simp only [List.mem_append, List.mem_singleton]
        constructor
        · exact Or.inl
        · rintro (hx | rfl)
          · exact hx
          · exact (hmem x).1 hin
      have hcard' : ((processed ++ [t]) ++ rest).toFinset.card ≤
          MAX_MESSAGES := by
        have : ((processed ++ [t]) ++ rest).toFinset =
            (processed ++ t :: rest).toFinset := by
          ext x
          simp [List.mem_append, List.mem_cons, or_assoc]
        rw [this]
        exact hcard
      have := ih (processed ++ [t]) pool
        (fun u hu => hmk u (List.mem_cons_of_mem t hu))
        hwf hlen hnd hmem' hcard'
      rw [show ensureAll valid idOf mk inval pool (t :: rest) =
          ensureAll valid idOf mk inval (ensure valid idOf mk inval pool t).1
            rest from rfl, hstep]
      refine ⟨this.1, this.2.1, this.2.2.1, ?_⟩
      intro x
      rw [this.2.2.2 x]
      simp [List.mem_append, List.mem_cons, or_assoc]
    · have hfind := find?_eq_none_of_not_mem_validIds valid idOf hin
      have hsub : (validIds valid idOf pool).toFinset ⊆
          ((processed ++ t :: rest).toFinset).erase t := by
        intro x hx
        rw [List.mem_toFinset] at hx
        rw [Finset.mem_erase]
        refine ⟨fun h => hin (h ▸ hx), ?_⟩
        rw [List.mem_toFinset, List.mem_append]
        exact Or.inl ((hmem x).1 hx)
      have htmem : t ∈ (processed ++ t :: rest).toFinset := by
        rw [List.mem_toFinset, List.mem_append]
        exact Or.inr (List.mem_cons_self t rest)
      have hcount : pool.countP valid < pool.length := by
        have h1 : (validIds valid idOf pool).length =
            (validIds valid idOf pool).toFinset.card :=
          (List.toFinset_card_of_nodup hnd).symm
        have h2 : (validIds valid idOf pool).toFinset.card ≤
            ((processed ++ t :: rest).toFinset).card - 1 := by
          have := Finset.card_le_card hsub
          rwa [Finset.card_erase_of_mem htmem] at this
        have h3 := validIds_length_eq_countP valid idOf pool hwf
        have h4 : 1 ≤ (processed ++ t :: rest).toFinset.card :=
          Finset.card_pos.2 ⟨t, htmem⟩
        omega
      have hany := any_invalid_of_countP_lt valid pool hcount
      have hstep : (ensure valid idOf mk inval pool t).1 =
          replaceFirstInvalid valid (mk t) pool := by
        unfold ensure
        rw [hfind, if_pos hany]
      have hmkt := hmk t (List.mem_cons_self t rest)
      have hperm := validIds_replaceFirstInvalid_perm valid idOf (mk t) t
        hmkt.1 hmkt.2 pool hany
      have hwf' : ∀ s ∈ replaceFirstInvalid valid (mk t) pool,
          valid s = true → (idOf s).isSome = true := by
        intro s hs hv
        rcases mem_replaceFirstInvalid valid (mk t) pool s hs with h | rfl
        · exact hwf s h hv
        · simp [hmkt.2]
      have hlen' : (replaceFirstInvalid valid (mk t) pool).length =
          MAX_MESSAGES := by
        rw [length_replaceFirstInvalid]
        exact hlen
      have hnd' : (validIds valid idOf
          (replaceFirstInvalid valid (mk t) pool)).Nodup := by
        rw [hperm.nodup_iff]
        exact List.Nodup.cons hin hnd
      have hmem' : ∀ x, x ∈ validIds valid idOf
          (replaceFirstInvalid valid (mk t) pool) ↔
          x ∈ processed ++ [t] := by
        intro x
        rw [hperm.mem_iff, List.mem_cons, hmem x]
        simp only [List.mem_append, List.mem_singleton]
        tauto
      have hcard' : ((processed ++ [t]) ++ rest).toFinset.card ≤
          MAX_MESSAGES := by
        have : ((processed ++ [t]) ++ rest).toFinset =
            (processed ++ t :: rest).toFinset := by
          ext x
          simp [List.mem_append, List.mem_cons, or_assoc]
        rw [this]
        exact hcard
      have := ih (processed ++ [t]) (replaceFirstInvalid valid (mk t) pool)
        (fun u hu => hmk u (List.mem_cons_of_mem t hu))
        hwf' hlen' hnd' hmem' hcard'
      rw [show ensureAll valid idOf mk inval pool (t :: rest) =
          ensureAll valid idOf mk inval (ensure valid idOf mk inval pool t).1
            rest from rfl, hstep]
      refine ⟨this.1, this.2.1, this.2.2.1, ?_⟩
      intro x
      rw [this.2.2.2 x]
      simp [List.mem_append, List.mem_cons, or_assoc]

end Pool

/-- Topics currently bound by valid subscriptions in the input pool. -/
def subValidIds (pool : List OrbSubscription) : List OrbId :=
  Pool.validIds OrbSubscription.is_valid OrbSubscription.id_ pool

/-- Topics currently bound by valid publications in the output pool. -/
def pubValidIds (pool : List OrbPublication) : List OrbId :=
  Pool.validIds OrbPublication.is_valid OrbPublication.id_ pool

/-- Classifier for `orb_advertise` (binding-creation) calls for topic `t`. -/
def isCreateFor (t : OrbId) : Event → Bool
  | Event.create x => decide (x = t)
  | _ => false

lemma default_subscription_invalid : ({} : OrbSubscription).is_valid = false := by
  decide

lemma mk_subscription_is_valid (bus : OrbBus) (t : OrbId)
    (h : 0 ≤ bus.subResult t) : (mk_subscription bus t).is_valid = true := by
  unfold mk_subscription OrbSubscription.is_valid
  rw [if_neg (not_lt.2 h)]
  simpa using h

lemma mk_subscription_invalid (bus : OrbBus) (t : OrbId)
    (h : bus.subResult t < 0) : (mk_subscription bus t).is_valid = false := by
  unfold mk_subscription OrbSubscription.is_valid
  rw [if_pos h]
  simp

lemma ensure_subscription_binding_id (bus : OrbBus)
    (pool : List OrbSubscription) (t : OrbId) :
    (ensure_subscription bus pool t).2.1.id_ = some t ∨
      (ensure_subscription bus pool t).2.1 = {} := by
  unfold ensure_subscription Pool.ensure
  cases hf : pool.find? (fun s => s.is_valid &&
      decide (s.id_ = some t)) with
  | some s =>
    have hp := List.find?_some hf
    simp only [Bool.and_eq_true, decide_eq_true_eq] at hp
    exact Or.inl hp.2
  | none =>
    by_cases h : pool.any (fun s => !s.is_valid) <;> simp [h, mk_subscription]

lemma ensure_subscription_events (bus : OrbBus) (pool : List OrbSubscription)
    (t : OrbId) :
    (ensure_subscription bus pool t).2.2 = [] ∨
    (ensure_subscription bus pool t).2.2 = [Event.create t] ∨
    (ensure_subscription bus pool t).2.2 = [Event.errTooMany] :=
  Pool.ensure_events _ _ _ _ pool t

lemma ensure_publication_binding_id (advOk : OrbId → Bool)
    (pool : List OrbPublication) (t : OrbId) :
    (ensure_publication advOk pool t).2.1.id_ = some t ∨
      (ensure_publication advOk pool t).2.1 = {} := by
  unfold ensure_publication Pool.ensure
  cases hf : pool.find? (fun s => s.is_valid &&
      decide (s.id_ = some t)) with
  | some s =>
    have hp := List.find?_some hf
    simp only [Bool.and_eq_true, decide_eq_true_eq] at hp
    exact Or.inl hp.2
  | none =>
    by_cases h : pool.any (fun s => !s.is_valid) <;> simp [h, mk_publication]

lemma ensure_publication_events (advOk : OrbId → Bool)
    (pool : List OrbPublication) (t : OrbId) :
    (ensure_publication advOk pool t).2.2 = [] ∨
    (ensure_publication advOk pool t).2.2 = [Event.create t] ∨
    (ensure_publication advOk pool t).2.2 = [Event.errTooMany] :=
  Pool.ensure_events _ _ _ _ pool t

lemma check_updated_cases (b : OrbSubscription) (bus : OrbBus)
    (upd : UpdFlags) (u : OrbId) (hbid : b.id_ = some u ∨ b = {}) :
    b.check_updated bus upd =
      (bus.checkOk u && upd u, [Event.busCheck u]) ∨
    b.check_updated bus upd = (false, []) := by
  rcases hbid with h | rfl
  · unfold OrbSubscription.check_updated
    rw [h]
    by_cases hv : b.is_valid <;> simp [hv]
  · right
    simp [OrbSubscription.check_updated, default_subscription_invalid]

lemma copy_data_cases (b : OrbSubscription) (bus : OrbBus) (upd : UpdFlags)
    (u : OrbId) (hbid : b.id_ = some u ∨ b = {}) :
    b.copy_data bus upd =
      (true, fun x => if x = u then false else upd x, [Event.busCopy u]) ∨
    b.copy_data bus upd = (false, upd, [Event.busCopy u]) ∨
    b.copy_data bus upd = (false, upd, []) := by
  rcases hbid with h | rfl
  · unfold OrbSubscription.copy_data
    rw [h]
    by_cases hv : b.is_valid <;> by_cases hcp : bus.copyOk u <;>
      simp [hv, hcp]
  · right; right
    simp [OrbSubscription.copy_data, default_subscription_invalid]


lemma inputStep_shape (bus : OrbBus) (eng : RustInputs) (upd : UpdFlags)
    (pool : List OrbSubscription) (i : Nat) (u : OrbId)
    (hid : eng.input_id i = some u) :
    ∃ tail : List Event,
      (inputStep bus eng upd pool i).2.2 =
        Event.visit i :: ((ensure_subscription bus pool u).2.2 ++ tail) ∧
      (tail = [] ∨ tail = [Event.busCheck u] ∨
       tail = [Event.busCheck u, Event.errOversize u] ∨
       tail = [Event.busCheck u, Event.busCopy u] ∨
       tail = [Event.busCheck u, Event.busCopy u,
         Event.writeInput u (eng.o_size u)] ∨
       tail = [Event.busCheck u, Event.busCopy u,
         Event.writeInput u (eng.o_size u), Event.errWrite u]) := by
  rcases hens : ensure_subscription bus pool u with ⟨P, b, E⟩
  have hbid : b.id_ = some u ∨ b = {} := by
    have h := ensure_subscription_binding_id bus pool u
    rw [hens] at h
    exact h
  have hck := check_updated_cases b bus upd u hbid
  have hcp := copy_data_cases b bus upd u hbid
  simp only [inputStep, hid, hens]
  rcases hck with hck | hck
  · rw [hck]
    by_cases hc : (bus.checkOk u && upd u) = true
    · by_cases hsz : MAX_MESSAGE_SIZE < eng.o_size u
      · exact ⟨[Event.busCheck u, Event.errOversize u],
          by simp [hc, hsz], by tauto⟩
      · rcases hcp with hcp | hcp | hcp <;> rw [hcp]
        · by_cases hw : eng.write_ok u = true
          · exact ⟨[Event.busCheck u, Event.busCopy u,
              Event.writeInput u (eng.o_size u)],
              by simp [hc, hsz, hw], by tauto⟩
          · exact ⟨[Event.busCheck u, Event.busCopy u,
              Event.writeInput u (eng.o_size u), Event.errWrite u],
              by simp [hc, hsz, hw], by tauto⟩
        · exact ⟨[Event.busCheck u, Event.busCopy u],
            by simp [hc, hsz], by tauto⟩
        · exact ⟨[Event.busCheck u], by simp [hc, hsz], by tauto⟩
    · exact ⟨[Event.busCheck u], by simp [hc], by tauto⟩
  · rw [hck]
    exact ⟨[], by simp, by tauto⟩

lemma inputStep_pool_eq (bus : OrbBus) (eng : RustInputs) (upd : UpdFlags)
    (pool : List OrbSubscription) (i : Nat) :
    (inputStep bus eng upd pool i).2.1 = pool ∨
    ∃ u, eng.input_id i = some u ∧
      (inputStep bus eng upd pool i).2.1 = (ensure_subscription bus pool u).1 := by
  cases hid : eng.input_id i with
  | none => left; simp [inputStep, hid]
  | some u =>
    right
    refine ⟨u, rfl, ?_⟩
    simp only [inputStep, hid]
    split_ifs <;> rfl

lemma ensure_subscription_length (bus : OrbBus) (pool : List OrbSubscription)
    (t : OrbId) : (ensure_subscription bus pool t).1.length = pool.length :=
  Pool.length_ensure _ _ _ _ pool t

lemma ensure_subscription_countP (bus : OrbBus) (pool : List OrbSubscription)
    (t : OrbId) :
    (ensure_subscription bus pool t).1.countP OrbSubscription.is_valid ≤
      pool.countP OrbSubscription.is_valid + 1 :=
  Pool.countP_ensure_le _ _ _ _ pool t

lemma ensure_subscription_mem (bus : OrbBus) (pool : List OrbSubscription)
    (t : OrbId) {x : OrbId} (hx : x ∈ subValidIds pool) :
    x ∈ subValidIds (ensure_subscription bus pool t).1 :=
  Pool.mem_validIds_ensure_of_mem _ _ _ _ pool t hx

lemma inputStep_pool_length (bus : OrbBus) (eng : RustInputs)
    (upd : UpdFlags) (pool : List OrbSubscription) (i : Nat) :
    (inputStep bus eng upd pool i).2.1.length = pool.length := by
  rcases inputStep_pool_eq bus eng upd pool i with h | ⟨u, _, h⟩ <;> rw [h]
  exact ensure_subscription_length bus pool u

lemma inputStep_pool_countP (bus : OrbBus) (eng : RustInputs)
    (upd : UpdFlags) (pool : List OrbSubscription) (i : Nat) :
    (inputStep bus eng upd pool i).2.1.countP OrbSubscription.is_valid ≤
      pool.countP OrbSubscription.is_valid + 1 := by
  rcases inputStep_pool_eq bus eng upd pool i with h | ⟨u, _, h⟩ <;> rw [h]
  · omega
  · exact ensure_subscription_countP bus pool u

lemma inputStep_pool_mem (bus : OrbBus) (eng : RustInputs) (upd : UpdFlags)
    (pool : List OrbSubscription) (i : Nat) {x : OrbId}
    (hx : x ∈ subValidIds pool) :
    x ∈ subValidIds (inputStep bus eng upd pool i).2.1 := by
  rcases inputStep_pool_eq bus eng upd pool i with h | ⟨u, _, h⟩ <;> rw [h]
  · exact hx
  · exact ensure_subscription_mem bus pool u hx

lemma inputStep_upd_preserve (bus : OrbBus) (eng : RustInputs)
    (upd : UpdFlags) (pool : List OrbSubscription) (i : Nat) (t : OrbId)
    (h : ∀ u, eng.input_id i = some u →
      u ≠ t ∨ MAX_MESSAGE_SIZE < eng.o_size u) :
    (inputStep bus eng upd pool i).1 t = upd t := by
  cases hid : eng.input_id i with
  | none => simp [inputStep, hid]
  | some u =>
    rcases hens : ensure_subscription bus pool u with ⟨P, b, E⟩
    have hbid : b.id_ = some u ∨ b = {} := by
      have hh := ensure_subscription_binding_id bus pool u
      rw [hens] at hh
      exact hh
    have hck := check_updated_cases b bus upd u hbid
    have hcp := copy_data_cases b bus upd u hbid
    simp only [inputStep, hid, hens]
    rcases h u hid with hut | hsz
    · rcases hck with hck | hck <;> rw [hck]
      · by_cases hc : (bus.checkOk u && upd u) = true
        · by_cases hsz : MAX_MESSAGE_SIZE < eng.o_size u
          · simp [hc, hsz]
          · rcases hcp with hcp | hcp | hcp <;> rw [hcp] <;>
              simp [hc, hsz, hut, Ne.symm hut]
        · simp [hc]
      · simp
    · rcases hck with hck | hck <;> rw [hck]
      · by_cases hc : (bus.checkOk u && upd u) = true <;> simp [hc, hsz]
      · simp

lemma inputStep_visit (bus : OrbBus) (eng : RustInputs) (upd : UpdFlags)
    (pool : List OrbSubscription) (i : Nat) :
    Event.visit i ∈ (inputStep bus eng upd pool i).2.2 := by
  cases hid : eng.input_id i with
  | none => simp [inputStep, hid]
  | some u =>
    obtain ⟨tail, htr, _⟩ := inputStep_shape bus eng upd pool i u hid
    rw [htr]
    exact List.mem_cons_self _ _

lemma countP_copy_write_ensure_events (bus : OrbBus)
    (pool : List OrbSubscription) (u t : OrbId) :
    List.countP (isCopyFor t) (ensure_subscription bus pool u).2.2 = 0 ∧
    List.countP (isWriteFor t) (ensure_subscription bus pool u).2.2 = 0 := by
  rcases ensure_subscription_events bus pool u with h | h | h <;>
    simp [h, isCopyFor, isWriteFor]

lemma inputStep_count_other (bus : OrbBus) (eng : RustInputs)
    (upd : UpdFlags) (pool : List OrbSubscription) (i : Nat) (t : OrbId)
    (hne : eng.input_id i ≠ some t) :
    List.countP (isCopyFor t) (inputStep bus eng upd pool i).2.2 = 0 ∧
    List.countP (isWriteFor t) (inputStep bus eng upd pool i).2.2 = 0 := by
  cases hid : eng.input_id i with
  | none => simp [inputStep, hid, isCopyFor, isWriteFor]
  | some u =>
    have hut : u ≠ t := fun e => hne (e ▸ hid)
    obtain ⟨tail, htr, hcases⟩ := inputStep_shape bus eng upd pool i u hid
    rw [htr]
    have hE := countP_copy_write_ensure_events bus pool u t
    rcases hcases with rfl | rfl | rfl | rfl | rfl | rfl <;>
      simp [List.countP_cons, List.countP_append, isCopyFor, isWriteFor,
        hE.1, hE.2, hut]

lemma inputStep_hit_counts (bus : OrbBus) (eng : RustInputs) (upd : UpdFlags)
    (pool : List OrbSubscription) (i : Nat) (t : OrbId)
    (hid : eng.input_id i = some t)
    (hbv : (ensure_subscription bus pool t).2.1.is_valid = true)
    (hbi : (ensure_subscription bus pool t).2.1.id_ = some t)
    (hchk : bus.checkOk t = true) (hupd : upd t = true)
    (hsz : ¬ MAX_MESSAGE_SIZE < eng.o_size t) (hcpy : bus.copyOk t = true) :
    List.countP (isCopyFor t) (inputStep bus eng upd pool i).2.2 = 1 ∧
    List.countP (isWriteFor t) (inputStep bus eng upd pool i).2.2 = 1 := by
  rcases hens : ensure_subscription bus pool t with ⟨P, b, E⟩
  rw [hens] at hbv hbi
  dsimp only at hbv hbi
  have hE : E = [] ∨ E = [Event.create t] ∨ E = [Event.errTooMany] := by
    have h := ensure_subscription_events bus pool t
    rw [hens] at h
    exact h
  have hck : b.check_updated bus upd = (true, [Event.busCheck t]) := by
    unfold OrbSubscription.check_updated
    simp [hbv, hbi, hchk, hupd]
  have hcpd : b.copy_data bus upd =
      (true, fun x => if x = t then false else upd x,
        [Event.busCopy t]) := by
    unfold OrbSubscription.copy_data
    simp [hbv, hbi, hcpy]
  simp only [inputStep, hid, hens]
  rw [hck, hcpd]
  by_cases hw : eng.write_ok t <;>
    rcases hE with rfl | rfl | rfl <;>
      simp [hsz, hw, List.countP_cons, List.countP_append, isCopyFor,
        isWriteFor]

lemma inputStep_oversize_counts (bus : OrbBus) (eng : RustInputs)
    (upd : UpdFlags) (pool : List OrbSubscription) (i : Nat) (t : OrbId)
    (hid : eng.input_id i = some t)
    (hsz : MAX_MESSAGE_SIZE < eng.o_size t) :
    List.countP (isCopyFor t) (inputStep bus eng upd pool i).2.2 = 0 ∧
    List.countP (isWriteFor t) (inputStep bus eng upd pool i).2.2 = 0 := by
  rcases hens : ensure_subscription bus pool t with ⟨P, b, E⟩
  have hbid : b.id_ = some t ∨ b = {} := by
    have hh := ensure_subscription_binding_id bus pool t
    rw [hens] at hh
    exact hh
  have hck := check_updated_cases b bus upd t hbid
  have hE : List.countP (isCopyFor t) E = 0 ∧
      List.countP (isWriteFor t) E = 0 := by
    have h := countP_copy_write_ensure_events bus pool t t
    rw [hens] at h
    exact h
  simp only [inputStep, hid, hens]
  rcases hck with hck | hck <;> rw [hck]
  · by_cases hc : (bus.checkOk t && upd t) = true <;>
      simp [hc, hsz, List.countP_cons, List.countP_append, hE.1, hE.2,
        isCopyFor, isWriteFor]
  · simp [List.countP_cons, List.countP_append, hE.1, hE.2, isCopyFor,
      isWriteFor]

lemma inputStep_oversize_err (bus : OrbBus) (eng : RustInputs)
    (upd : UpdFlags) (pool : List OrbSubscription) (i : Nat) (t : OrbId)
    (hid : eng.input_id i = some t)
    (hbv : (ensure_subscription bus pool t).2.1.is_valid = true)
    (hbi : (ensure_subscription bus pool t).2.1.id_ = some t)
    (hchk : bus.checkOk t = true) (hupd : upd t = true)
    (hsz : MAX_MESSAGE_SIZE < eng.o_size t) :
    Event.errOversize t ∈ (inputStep bus eng upd pool i).2.2 := by
  rcases hens : ensure_subscription bus pool t with ⟨P, b, E⟩
  rw [hens] at hbv hbi
  dsimp only at hbv hbi
  have hck : b.check_updated bus upd = (true, [Event.busCheck t]) := by
    unfold OrbSubscription.check_updated
    simp [hbv, hbi, hchk, hupd]
  simp only [inputStep, hid, hens]
  rw [hck]
  simp [hsz]

namespace Pool

variable {α : Type} (valid : α → Bool) (idOf : α → Option OrbId) (mk : OrbId → α) (inval : α)

lemma ensure_mem_result (pool : List α) (t : OrbId)
    (hmkv : valid (mk t) = true) (hmki : idOf (mk t) = some t)
    (hroom : pool.countP valid < pool.length ∨
      t ∈ validIds valid idOf pool) :
    t ∈ validIds valid idOf (ensure valid idOf mk inval pool t).1 := by
  by_cases hmem : t ∈ validIds valid idOf pool
  · exact mem_validIds_ensure_of_mem valid idOf mk inval pool t hmem
  · have hfind := find?_eq_none_of_not_mem_validIds valid idOf hmem
    have hlt : pool.countP valid < pool.length := hroom.resolve_right hmem
    have hany := any_invalid_of_countP_lt valid pool hlt
    unfold ensure
    rw [hfind, if_pos hany]
    have hperm := validIds_replaceFirstInvalid_perm valid idOf (mk t) t
      hmkv hmki pool hany
    exact hperm.mem_iff.2 (List.mem_cons_self t _)

lemma ensure_create_of_new (pool : List α) (t : OrbId)
    (hmem : t ∉ validIds valid idOf pool)
    (hlt : pool.countP valid < pool.length) :
    (ensure valid idOf mk inval pool t).2.2 = [Event.create t] := by
  unfold ensure
  rw [find?_eq_none_of_not_mem_validIds valid idOf hmem,
    if_pos (any_invalid_of_countP_lt valid pool hlt)]

lemma ensure_exhausted (pool : List α) (t : OrbId)
    (hall : ∀ s ∈ pool, valid s = true)
    (hnot : ∀ s ∈ pool, idOf s ≠ some t) :
    ensure valid idOf mk inval pool t = (pool, inval, [Event.errTooMany]) := by
  unfold ensure
  have hfind : pool.find? (fun s => valid s && decide (idOf s = some t)) =
      none :=
    List.find?_eq_none.2 (fun s hs => by simp [hnot s hs])
  have hany : pool.any (fun s => !valid s) = false := by
    rw [List.any_eq_false]
    intro s hs
    simp [hall s hs]
  rw [hfind, hany]
  simp

end Pool

lemma ensure_subscription_returns_valid (bus : OrbBus)
    (pool : List OrbSubscription) (t : OrbId) (hsub : 0 ≤ bus.subResult t)
    (hroom : pool.countP OrbSubscription.is_valid < pool.length ∨
      t ∈ subValidIds pool) :
    (ensure_subscription bus pool t).2.1.is_valid = true ∧
    (ensure_subscription bus pool t).2.1.id_ = some t :=
  Pool.ensure_returns_valid _ _ _ _ pool t
    (mk_subscription_is_valid bus t hsub) rfl hroom

lemma inputLoop_visits (bus : OrbBus) (eng : RustInputs) :
    ∀ (idxs : List Nat) (upd : UpdFlags) (pool : List OrbSubscription)
      (i : Nat), i ∈ idxs →
      Event.visit i ∈ (inputLoop bus eng upd pool idxs).2.2 := by
  intro idxs
  induction idxs with
  | nil => simp
  | cons j rest ih =>
    intro upd pool i hi
    simp only [inputLoop]
    rcases List.mem_cons.1 hi with rfl | hi
    · exact List.mem_append_left _ (inputStep_visit bus eng upd pool i)
    · exact List.mem_append_right _ (ih _ _ i hi)

lemma inputLoop_count_zero (bus : OrbBus) (eng : RustInputs) (t : OrbId) :
    ∀ (idxs : List Nat) (upd : UpdFlags) (pool : List OrbSubscription),
      (∀ i ∈ idxs, eng.input_id i ≠ some t) →
      List.countP (isCopyFor t) (inputLoop bus eng upd pool idxs).2.2 = 0 ∧
      List.countP (isWriteFor t) (inputLoop bus eng upd pool idxs).2.2 = 0 := by
  intro idxs
  induction idxs with
  | nil => simp [inputLoop]
  | cons j rest ih =>
    intro upd pool hne
    simp only [inputLoop, List.countP_append]
    have hstep := inputStep_count_other bus eng upd pool j t
      (hne j (List.mem_cons_self j rest))
    have hrest := ih (inputStep bus eng upd pool j).1
      (inputStep bus eng upd pool j).2.1
      (fun i hi => hne i (List.mem_cons_of_mem j hi))
    exact ⟨by omega, by omega⟩

lemma inputLoop_once (bus : OrbBus) (eng : RustInputs) (t : OrbId)
    (hchk : bus.checkOk t = true) (hcpy : bus.copyOk t = true)
    (hsub : 0 ≤ bus.subResult t)
    (hsz : ¬ MAX_MESSAGE_SIZE < eng.o_size t) :
    ∀ (idxs : List Nat) (upd : UpdFlags) (pool : List OrbSubscription),
      List.countP (fun i => decide (eng.input_id i = some t)) idxs = 1 →
      pool.countP OrbSubscription.is_valid + idxs.length ≤ pool.length →
      upd t = true →
      List.countP (isCopyFor t) (inputLoop bus eng upd pool idxs).2.2 = 1 ∧
      List.countP (isWriteFor t) (inputLoop bus eng upd pool idxs).2.2 = 1 := by
  intro idxs
  induction idxs with
  | nil => simp
  | cons j rest ih =>
    intro upd pool honce hcap hupd
    simp only [inputLoop, List.countP_append]
    by_cases hj : eng.input_id j = some t
    · have hrest0 : List.countP (fun i =>
          decide (eng.input_id i = some t)) rest = 0 := by
        rw [List.countP_cons, hj] at honce
        simp only [decide_True, if_pos] at honce
        omega
      have hne : ∀ i ∈ rest, eng.input_id i ≠ some t := by
        intro i hi hc
        have := List.countP_eq_zero.1 hrest0 i hi
        simp [hc] at this
      have hroom : pool.countP OrbSubscription.is_valid < pool.length := by
        simp only [List.length_cons] at hcap
        omega
      have hb := ensure_subscription_returns_valid bus pool t hsub
        (Or.inl hroom)
      have hstep := inputStep_hit_counts bus eng upd pool j t hj hb.1 hb.2
        hchk hupd hsz hcpy
      have hrest := inputLoop_count_zero bus eng t rest
        (inputStep bus eng upd pool j).1 (inputStep bus eng upd pool j).2.1
        hne
      exact ⟨by omega, by omega⟩
    · have hrest1 : List.countP (fun i =>
          decide (eng.input_id i = some t)) rest = 1 := by
        rw [List.countP_cons] at honce
        simp only [hj, decide_False, if_neg] at honce
        simpa using honce
      have hstep := inputStep_count_other bus eng upd pool j t hj
      have hupd' : (inputStep bus eng upd pool j).1 t = upd t :=
        inputStep_upd_preserve bus eng upd pool j t
          (fun u hu => Or.inl (fun e => hj (e ▸ hu)))
      have hcap' : (inputStep bus eng upd pool j).2.1.countP
          OrbSubscription.is_valid + rest.length ≤
          (inputStep bus eng upd pool j).2.1.length := by
        have h1 := inputStep_pool_countP bus eng upd pool j
        have h2 := inputStep_pool_length bus eng upd pool j
        simp only [List.length_cons] at hcap
        omega
      have hrest := ih (inputStep bus eng upd pool j).1
        (inputStep bus eng upd pool j).2.1 hrest1 hcap' (hupd'.trans hupd)
      exact ⟨by omega, by omega⟩

namespace Pool

variable {α : Type} (valid : α → Bool) (idOf : α → Option OrbId) (mk : OrbId → α) (inval : α)

lemma mem_validIds_replaceFirstInvalid_cases (nu : α) :
    ∀ (pool : List α) (x : OrbId),
    x ∈ validIds valid idOf (replaceFirstInvalid valid nu pool) →
    x ∈ validIds valid idOf pool ∨
      (valid nu = true ∧ idOf nu = some x) := by
  intro pool
  induction pool with
  | nil => simp [replaceFirstInvalid, validIds]
  | cons s rest ih =>
    intro x hx
    by_cases hs : valid s
    · simp only [replaceFirstInvalid, hs, if_pos, validIds,
        List.filterMap_cons] at hx ⊢
      cases ha : idOf s with
      | none =>
        simp only [ha] at hx ⊢
        exact ih x hx
      | some a =>
        simp only [ha, List.mem_cons] at hx ⊢
        rcases hx with rfl | hx
        · exact Or.inl (Or.inl rfl)
        · rcases ih x hx with h | h
          · exact Or.inl (Or.inr h)
          · exact Or.inr h
    · simp only [replaceFirstInvalid, hs, Bool.false_eq_true, if_neg,
        not_false_iff, validIds, List.filterMap_cons] at hx ⊢
      by_cases hnu : valid nu
      · cases hb : idOf nu with
        | none =>
          simp only [hnu, hb, if_pos] at hx
          exact Or.inl hx
        | some b =>
          simp only [hnu, hb, if_pos, List.mem_cons] at hx
          rcases hx with rfl | hx
          · exact Or.inr ⟨hnu, rfl⟩
          · exact Or.inl hx
      · simp only [hnu, Bool.false_eq_true, if_neg, not_false_iff] at hx
        exact Or.inl hx

lemma mem_validIds_ensure_cases (pool : List α) (u : OrbId) (x : OrbId)
    (hmki : idOf (mk u) = some u)
    (hx : x ∈ validIds valid idOf (ensure valid idOf mk inval pool u).1) :
    x ∈ validIds valid idOf pool ∨ x = u := by
  unfold ensure at hx
  cases hf : pool.find? (fun s => valid s && decide (idOf s = some u)) with
  | some s =>
    rw [hf] at hx
    exact Or.inl hx
  | none =>
    rw [hf] at hx
    by_cases h : pool.any (fun s => !valid s)
    · rw [if_pos h] at hx
      rcases mem_validIds_replaceFirstInvalid_cases valid idOf (mk u)
        pool x hx with hh | hh
      · exact Or.inl hh
      · right
        have := hh.2
        rw [hmki] at this
        exact (Option.some_inj.1 this).symm
    · rw [if_neg h] at hx
      exact Or.inl hx

end Pool

lemma inputStep_pool_mem_cases (bus : OrbBus) (eng : RustInputs)
    (upd : UpdFlags) (pool : List OrbSubscription) (i : Nat) (x : OrbId)
    (hx : x ∈ subValidIds (inputStep bus eng upd pool i).2.1) :
    x ∈ subValidIds pool ∨ eng.input_id i = some x := by
  rcases inputStep_pool_eq bus eng upd pool i with h | ⟨u, hu, h⟩
  · rw [h] at hx
    exact Or.inl hx
  · rw [h] at hx
    rcases Pool.mem_validIds_ensure_cases _ _ _ _ pool u x rfl hx with hh | rfl
    · exact Or.inl hh
    · exact Or.inr hu

lemma inputLoop_pool_mem (bus : OrbBus) (eng : RustInputs) :
    ∀ (idxs : List Nat) (upd : UpdFlags) (pool : List OrbSubscription)
      (x : OrbId), x ∈ subValidIds pool →
      x ∈ subValidIds (inputLoop bus eng upd pool idxs).2.1 := by
  intro idxs
  induction idxs with
  | nil => intro upd pool x hx; exact hx
  | cons j rest ih =>
    intro upd pool x hx
    simp only [inputLoop]
    exact ih _ _ x (inputStep_pool_mem bus eng upd pool j hx)

lemma inputLoop_oversize_zero (bus : OrbBus) (eng : RustInputs) (t : OrbId)
    (hsz : MAX_MESSAGE_SIZE < eng.o_size t) :
    ∀ (idxs : List Nat) (upd : UpdFlags) (pool : List OrbSubscription),
      List.countP (isCopyFor t) (inputLoop bus eng upd pool idxs).2.2 = 0 ∧
      List.countP (isWriteFor t) (inputLoop bus eng upd pool idxs).2.2 = 0 := by
  intro idxs
  induction idxs with
  | nil => simp [inputLoop]
  | cons j rest ih =>
    intro upd pool
    simp only [inputLoop, List.countP_append]
    have hrest := ih (inputStep bus eng upd pool j).1
      (inputStep bus eng upd pool j).2.1
    have hstep : List.countP (isCopyFor t)
        (inputStep bus eng upd pool j).2.2 = 0 ∧
        List.countP (isWriteFor t) (inputStep bus eng upd pool j).2.2 = 0 := by
      by_cases hj : eng.input_id j = some t
      · exact inputStep_oversize_counts bus eng upd pool j t hj hsz
      · exact inputStep_count_other bus eng upd pool j t hj
    exact ⟨by omega, by omega⟩

lemma inputLoop_oversize_err (bus : OrbBus) (eng : RustInputs) (t : OrbId)
    (hsub : 0 ≤ bus.subResult t) (hchk : bus.checkOk t = true)
    (hsz : MAX_MESSAGE_SIZE < eng.o_size t) :
    ∀ (idxs : List Nat) (upd : UpdFlags) (pool : List OrbSubscription),
      (∃ i ∈ idxs, eng.input_id i = some t) →
      pool.countP OrbSubscription.is_valid + idxs.length ≤ pool.length →
      upd t = true →
      Event.errOversize t ∈ (inputLoop bus eng upd pool idxs).2.2 := by
  intro idxs
  induction idxs with
  | nil => simp
  | cons j rest ih =>
    intro upd pool hex hcap hupd
    simp only [inputLoop]
    by_cases hj : eng.input_id j = some t
    · have hroom : pool.countP OrbSubscription.is_valid < pool.length := by
        simp only [List.length_cons] at hcap
        omega
      have hb := ensure_subscription_returns_valid bus pool t hsub
        (Or.inl hroom)
      exact List.mem_append_left _
        (inputStep_oversize_err bus eng upd pool j t hj hb.1 hb.2 hchk
          hupd hsz)
    · have hex' : ∃ i ∈ rest, eng.input_id i = some t := by
        rcases hex with ⟨i, hi, hit⟩
        rcases List.mem_cons.1 hi with rfl | hi
        · exact absurd hit hj
        · exact ⟨i, hi, hit⟩
      have hupd' : (inputStep bus eng upd pool j).1 t = upd t :=
        inputStep_upd_preserve bus eng upd pool j t
          (fun u hu => Or.inl (fun e => hj (e ▸ hu)))
      have hcap' : (inputStep bus eng upd pool j).2.1.countP
          OrbSubscription.is_valid + rest.length ≤
          (inputStep bus eng upd pool j).2.1.length := by
        have h1 := inputStep_pool_countP bus eng upd pool j
        have h2 := inputStep_pool_length bus eng upd pool j
        simp only [List.length_cons] at hcap
        omega
      exact List.mem_append_right _
        (ih (inputStep bus eng upd pool j).1 (inputStep bus eng upd pool j).2.1
          hex' hcap' (hupd'.trans hupd))

lemma inputStep_create_mem (bus : OrbBus) (eng : RustInputs) (upd : UpdFlags)
    (pool : List OrbSubscription) (j : Nat) (t : OrbId)
    (hj : eng.input_id j = some t) (hnm : t ∉ subValidIds pool)
    (hroom : pool.countP OrbSubscription.is_valid < pool.length) :
    Event.create t ∈ (inputStep bus eng upd pool j).2.2 := by
  obtain ⟨tail, htr, _⟩ := inputStep_shape bus eng upd pool j t hj
  rw [htr]
  have hE : (ensure_subscription bus pool t).2.2 = [Event.create t] :=
    Pool.ensure_create_of_new _ _ _ _ pool t hnm hroom
  rw [hE]
  simp

lemma inputStep_pool_some (bus : OrbBus) (eng : RustInputs) (upd : UpdFlags)
    (pool : List OrbSubscription) (i : Nat) (u : OrbId)
    (hid : eng.input_id i = some u) :
    (inputStep bus eng upd pool i).2.1 = (ensure_subscription bus pool u).1 := by
  simp only [inputStep, hid]
  split_ifs <;> rfl

lemma inputStep_ensured_mem (bus : OrbBus) (eng : RustInputs)
    (upd : UpdFlags) (pool : List OrbSubscription) (j : Nat) (t : OrbId)
    (hj : eng.input_id j = some t) (hsub : 0 ≤ bus.subResult t)
    (hroom : pool.countP OrbSubscription.is_valid < pool.length ∨
      t ∈ subValidIds pool) :
    t ∈ subValidIds (inputStep bus eng upd pool j).2.1 := by
  rw [inputStep_pool_some bus eng upd pool j t hj]
  exact Pool.ensure_mem_result _ _ _ _ pool t
    (mk_subscription_is_valid bus t hsub) rfl hroom

lemma inputLoop_c10 (bus : OrbBus) (eng : RustInputs) (t : OrbId)
    (hsub : 0 ≤ bus.subResult t) :
    ∀ (idxs : List Nat) (upd : UpdFlags) (pool : List OrbSubscription),
      (∃ i ∈ idxs, eng.input_id i = some t) →
      pool.countP OrbSubscription.is_valid + idxs.length ≤ pool.length →
      t ∉ subValidIds pool →
      t ∈ subValidIds (inputLoop bus eng upd pool idxs).2.1 ∧
      Event.create t ∈ (inputLoop bus eng upd pool idxs).2.2 := by
  intro idxs
  induction idxs with
  | nil => simp
  | cons j rest ih =>
    intro upd pool hex hcap hnm
    simp only [inputLoop]
    by_cases hj : eng.input_id j = some t
    · have hroom : pool.countP OrbSubscription.is_valid < pool.length := by
        simp only [List.length_cons] at hcap
        omega
      refine ⟨?_, List.mem_append_left _
        (inputStep_create_mem bus eng upd pool j t hj hnm hroom)⟩
      exact inputLoop_pool_mem bus eng rest _ _ t
        (inputStep_ensured_mem bus eng upd pool j t hj hsub (Or.inl hroom))
    · have hex' : ∃ i ∈ rest, eng.input_id i = some t := by
        rcases hex with ⟨i, hi, hit⟩
        rcases List.mem_cons.1 hi with rfl | hi
        · exact absurd hit hj
        · exact ⟨i, hi, hit⟩
      have hnm' : t ∉ subValidIds (inputStep bus eng upd pool j).2.1 := by
        intro hc
        rcases inputStep_pool_mem_cases bus eng upd pool j t hc with h | h
        · exact hnm h
        · exact hj h
      have hcap' : (inputStep bus eng upd pool j).2.1.countP
          OrbSubscription.is_valid + rest.length ≤
          (inputStep bus eng upd pool j).2.1.length := by
        have h1 := inputStep_pool_countP bus eng upd pool j
        have h2 := inputStep_pool_length bus eng upd pool j
        simp only [List.length_cons] at hcap
        omega
      have := ih (inputStep bus eng upd pool j).1
        (inputStep bus eng upd pool j).2.1 hex' hcap' hnm'
      exact ⟨this.1, List.mem_append_right _ this.2⟩

lemma ensure_publication_returns_valid (advOk : OrbId → Bool)
    (pubs : List OrbPublication) (t : OrbId) (hadv : advOk t = true)
    (hroom : pubs.countP OrbPublication.is_valid < pubs.length ∨
      t ∈ pubValidIds pubs) :
    (ensure_publication advOk pubs t).2.1.is_valid = true ∧
    (ensure_publication advOk pubs t).2.1.id_ = some t :=
  Pool.ensure_returns_valid _ _ _ _ pubs t
    (by simp [mk_publication, OrbPublication.is_valid, hadv]) rfl hroom

lemma outputStep_events_cases (eng : RustOutputs)
    (pubs : List OrbPublication) (i : Nat) (u : OrbId)
    (hid : eng.output_id i = some u) :
    (outputStep eng pubs i).2 = [Event.visit i, Event.errHasUpdate u] ∨
    (outputStep eng pubs i).2 = [Event.visit i] ∨
    (outputStep eng pubs i).2 = [Event.visit i, Event.errOversize u] ∨
    (outputStep eng pubs i).2 =
      [Event.visit i, Event.readOutput u, Event.errRead u] ∨
    (outputStep eng pubs i).2 =
      [Event.visit i, Event.readOutput u, Event.errSizeMismatch u] ∨
    (∃ E, (E = [] ∨ E = [Event.create u] ∨ E = [Event.errTooMany]) ∧
      ((outputStep eng pubs i).2 =
          Event.visit i :: Event.readOutput u :: (E ++ [Event.publish u]) ∨
        (outputStep eng pubs i).2 =
          Event.visit i :: Event.readOutput u :: E)) := by
  simp only [outputStep, hid]
  cases hup : eng.has_update u with
  | none => simp
  | some b =>
    cases b with
    | false => simp
    | true =>
      by_cases hsz : MAX_MESSAGE_SIZE < eng.o_size u
      · simp [hsz]
      · simp only [hsz, if_false]
        cases hrd : eng.read_result u with
        | none => simp
        | some bytes =>
          by_cases hbe : bytes = eng.o_size u
          · simp only [hbe, if_pos]
            rcases hens : ensure_publication eng.advertise_ok pubs u with
              ⟨Q, p, E⟩
            have hE : E = [] ∨ E = [Event.create u] ∨
                E = [Event.errTooMany] := by
              have h := ensure_publication_events eng.advertise_ok pubs u
              rw [hens] at h
              exact h
            by_cases hv : p.is_valid = true
            · refine Or.inr (Or.inr (Or.inr (Or.inr (Or.inr
                ⟨E, hE, Or.inl ?_⟩))))
              simp [hens, hv]
            · refine Or.inr (Or.inr (Or.inr (Or.inr (Or.inr
                ⟨E, hE, Or.inr ?_⟩))))
              simp [hens, hv]
          · simp [hbe]

lemma outputStep_visit (eng : RustOutputs) (pubs : List OrbPublication)
    (i : Nat) : Event.visit i ∈ (outputStep eng pubs i).2 := by
  cases hid : eng.output_id i with
  | none => simp [outputStep, hid]
  | some u =>
    rcases outputStep_events_cases eng pubs i u hid with
      h | h | h | h | h | ⟨E, _, h | h⟩ <;> rw [h] <;> simp

lemma outputStep_count_other (eng : RustOutputs)
    (pubs : List OrbPublication) (i : Nat) (t : OrbId)
    (hne : eng.output_id i ≠ some t) :
    List.countP (isReadFor t) (outputStep eng pubs i).2 = 0 ∧
    List.countP (isPublishFor t) (outputStep eng pubs i).2 = 0 ∧
    List.countP (isCreateFor t) (outputStep eng pubs i).2 = 0 := by
  cases hid : eng.output_id i with
  | none => simp [outputStep, hid, isReadFor, isPublishFor, isCreateFor]
  | some u =>
    have hut : u ≠ t := fun e => hne (e ▸ hid)
    rcases outputStep_events_cases eng pubs i u hid with
      h | h | h | h | h | ⟨E, hE, h | h⟩
    · rw [h]; simp [isReadFor, isPublishFor, isCreateFor, hut]
    · rw [h]; simp [isReadFor, isPublishFor, isCreateFor, hut]
    · rw [h]; simp [isReadFor, isPublishFor, isCreateFor, hut]
    · rw [h]; simp [isReadFor, isPublishFor, isCreateFor, hut]
    · rw [h]; simp [isReadFor, isPublishFor, isCreateFor, hut]
    · rw [h]
      rcases hE with rfl | rfl | rfl <;>
        simp [isReadFor, isPublishFor, isCreateFor, List.countP_cons,
          List.countP_append, hut]
    · rw [h]
      rcases hE with rfl | rfl | rfl <;>
        simp [isReadFor, isPublishFor, isCreateFor, List.countP_cons,
          List.countP_append, hut]

lemma outputStep_mismatch_zero (eng : RustOutputs)
    (pubs : List OrbPublication) (i : Nat) (t : OrbId) (b : Nat)
    (hrd : eng.read_result t = some b) (hbe : ¬ b = eng.o_size t) :
    List.countP (isPublishFor t) (outputStep eng pubs i).2 = 0 ∧
    List.countP (isCreateFor t) (outputStep eng pubs i).2 = 0 := by
  cases hid : eng.output_id i with
  | none => simp [outputStep, hid, isPublishFor, isCreateFor]
  | some u =>
    by_cases hut : u = t
    · subst hut
      simp only [outputStep, hid]
      cases hup : eng.has_update u with
      | none => simp [isPublishFor, isCreateFor]
      | some bb =>
        cases bb with
        | false => simp [isPublishFor, isCreateFor]
        | true =>
          by_cases hsz : MAX_MESSAGE_SIZE < eng.o_size u
          · simp [hsz, isPublishFor, isCreateFor]
          · simp [hsz, hrd, hbe, isPublishFor, isCreateFor]
    · have h := outputStep_count_other eng pubs i t
        (fun e => hut (Option.some_inj.1 (hid ▸ e)))
      exact ⟨h.2.1, h.2.2⟩

lemma outputStep_mismatch_err (eng : RustOutputs)
    (pubs : List OrbPublication) (i : Nat) (t : OrbId) (b : Nat)
    (hid : eng.output_id i = some t)
    (hup : eng.has_update t = some true)
    (hsz : ¬ MAX_MESSAGE_SIZE < eng.o_size t)
    (hrd : eng.read_result t = some b) (hbe : ¬ b = eng.o_size t) :
    Event.errSizeMismatch t ∈ (outputStep eng pubs i).2 := by
  simp [outputStep, hid, hup, hsz, hrd, hbe]

lemma outputStep_oversize_zero (eng : RustOutputs)
    (pubs : List OrbPublication) (i : Nat) (t : OrbId)
    (hsz : MAX_MESSAGE_SIZE < eng.o_size t) :
    List.countP (isReadFor t) (outputStep eng pubs i).2 = 0 ∧
    List.countP (isPublishFor t) (outputStep eng pubs i).2 = 0 ∧
    List.countP (isCreateFor t) (outputStep eng pubs i).2 = 0 := by
  cases hid : eng.output_id i with
  | none => simp [outputStep, hid, isReadFor, isPublishFor, isCreateFor]
  | some u =>
    by_cases hut : u = t
    · subst hut
      simp only [outputStep, hid]
      cases hup : eng.has_update u with
      | none => simp [isReadFor, isPublishFor, isCreateFor]
      | some bb =>
        cases bb with
        | false => simp [isReadFor, isPublishFor, isCreateFor]
        | true =>
          simp [hsz, isReadFor, isPublishFor, isCreateFor]
    · exact outputStep_count_other eng pubs i t
        (fun e => hut (Option.some_inj.1 (hid ▸ e)))

lemma outputStep_oversize_err (eng : RustOutputs)
    (pubs : List OrbPublication) (i : Nat) (t : OrbId)
    (hid : eng.output_id i = some t)
    (hup : eng.has_update t = some true)
    (hsz : MAX_MESSAGE_SIZE < eng.o_size t) :
    Event.errOversize t ∈ (outputStep eng pubs i).2 := by
  simp [outputStep, hid, hup, hsz]

lemma outputStep_hit (eng : RustOutputs) (pubs : List OrbPublication)
    (i : Nat) (t : OrbId) (hid : eng.output_id i = some t)
    (hup : eng.has_update t = some true)
    (hsz : ¬ MAX_MESSAGE_SIZE < eng.o_size t)
    (hrd : eng.read_result t = some (eng.o_size t))
    (hadv : eng.advertise_ok t = true)
    (hroom : pubs.countP OrbPublication.is_valid < pubs.length ∨
      t ∈ pubValidIds pubs) :
    List.countP (isReadFor t) (outputStep eng pubs i).2 = 1 ∧
    List.countP (isPublishFor t) (outputStep eng pubs i).2 = 1 := by
  have hb := ensure_publication_returns_valid eng.advertise_ok pubs t hadv
    hroom
  have hE := ensure_publication_events eng.advertise_ok pubs t
  rcases hE with h | h | h <;>
    simp [outputStep, hid, hup, hsz, hrd, hb.1, h, isReadFor, isPublishFor,
      List.countP_cons, List.countP_append]

lemma ensure_publication_length (advOk : OrbId → Bool)
    (pubs : List OrbPublication) (t : OrbId) :
    (ensure_publication advOk pubs t).1.length = pubs.length :=
  Pool.length_ensure _ _ _ _ pubs t

lemma ensure_publication_countP (advOk : OrbId → Bool)
    (pubs : List OrbPublication) (t : OrbId) :
    (ensure_publication advOk pubs t).1.countP OrbPublication.is_valid ≤
      pubs.countP OrbPublication.is_valid + 1 :=
  Pool.countP_ensure_le _ _ _ _ pubs t

lemma outputStep_pubs_eq (eng : RustOutputs) (pubs : List OrbPublication)
    (i : Nat) :
    (outputStep eng pubs i).1 = pubs ∨
    ∃ u, eng.output_id i = some u ∧
      (outputStep eng pubs i).1 =
        (ensure_publication eng.advertise_ok pubs u).1 := by
  cases hid : eng.output_id i with
  | none => left; simp [outputStep, hid]
  | some u =>
    simp only [outputStep, hid]
    cases hup : eng.has_update u with
    | none => left; simp
    | some bb =>
      cases bb with
      | false => left; simp
      | true =>
        by_cases hsz : MAX_MESSAGE_SIZE < eng.o_size u
        · left; simp [hsz]
        · cases hrd : eng.read_result u with
          | none => left; simp [hsz, hrd]
          | some bytes =>
            by_cases hbe : bytes = eng.o_size u
            · right
              refine ⟨u, rfl, ?_⟩
              by_cases hv : (ensure_publication eng.advertise_ok
                  pubs u).2.1.is_valid = true <;>
                simp [hsz, hrd, hbe, hv]
            · left; simp [hsz, hrd, hbe]

lemma outputStep_pubs_length (eng : RustOutputs)
    (pubs : List OrbPublication) (i : Nat) :
    (outputStep eng pubs i).1.length = pubs.length := by
  rcases outputStep_pubs_eq eng pubs i with h | ⟨u, _, h⟩ <;> rw [h]
  exact ensure_publication_length eng.advertise_ok pubs u

lemma outputStep_pubs_countP (eng : RustOutputs)
    (pubs : List OrbPublication) (i : Nat) :
    (outputStep eng pubs i).1.countP OrbPublication.is_valid ≤
      pubs.countP OrbPublication.is_valid + 1 := by
  rcases outputStep_pubs_eq eng pubs i with h | ⟨u, _, h⟩ <;> rw [h]
  · omega
  · exact ensure_publication_countP eng.advertise_ok pubs u

lemma outputLoop_visits (eng : RustOutputs) :
    ∀ (idxs : List Nat) (pubs : List OrbPublication) (i : Nat), i ∈ idxs →
      Event.visit i ∈ (outputLoop eng pubs idxs).2 := by
  intro idxs
  induction idxs with
  | nil => simp
  | cons j rest ih =>
    intro pubs i hi
    simp only [outputLoop]
    rcases List.mem_cons.1 hi with rfl | hi
    · exact List.mem_append_left _ (outputStep_visit eng pubs i)
    · exact List.mem_append_right _ (ih _ i hi)

lemma outputLoop_count_zero (eng : RustOutputs) (t : OrbId) :
    ∀ (idxs : List Nat) (pubs : List OrbPublication),
      (∀ i ∈ idxs, eng.output_id i ≠ some t) →
      List.countP (isReadFor t) (outputLoop eng pubs idxs).2 = 0 ∧
      List.countP (isPublishFor t) (outputLoop eng pubs idxs).2 = 0 ∧
      List.countP (isCreateFor t) (outputLoop eng pubs idxs).2 = 0 := by
  intro idxs
  induction idxs with
  | nil => simp [outputLoop]
  | cons j rest ih =>
    intro pubs hne
    simp only [outputLoop, List.countP_append]
    have hstep := outputStep_count_other eng pubs j t
      (hne j (List.mem_cons_self j rest))
    have hrest := ih (outputStep eng pubs j).1
      (fun i hi => hne i (List.mem_cons_of_mem j hi))
    refine ⟨by omega, by omega, by omega⟩

lemma outputLoop_once (eng : RustOutputs) (t : OrbId)
    (hup : eng.has_update t = some true)
    (hsz : ¬ MAX_MESSAGE_SIZE < eng.o_size t)
    (hrd : eng.read_result t = some (eng.o_size t))
    (hadv : eng.advertise_ok t = true) :
    ∀ (idxs : List Nat) (pubs : List OrbPublication),
      List.countP (fun i => decide (eng.output_id i = some t)) idxs = 1 →
      pubs.countP OrbPublication.is_valid + idxs.length ≤ pubs.length →
      List.countP (isReadFor t) (outputLoop eng pubs idxs).2 = 1 ∧
      List.countP (isPublishFor t) (outputLoop eng pubs idxs).2 = 1 := by
  intro idxs
  induction idxs with
  | nil => simp
  | cons j rest ih =>
    intro pubs honce hcap
    simp only [outputLoop, List.countP_append]
    by_cases hj : eng.output_id j = some t
    · have hrest0 : List.countP (fun i =>
          decide (eng.output_id i = some t)) rest = 0 := by
        rw [List.countP_cons, hj] at honce
        simp only [decide_True, if_pos] at honce
        omega
      have hne : ∀ i ∈ rest, eng.output_id i ≠ some t := by
        intro i hi hc
        have := List.countP_eq_zero.1 hrest0 i hi
        simp [hc] at this
      have hroom : pubs.countP OrbPublication.is_valid < pubs.length := by
        simp only [List.length_cons] at hcap
        omega
      have hstep := outputStep_hit eng pubs j t hj hup hsz hrd hadv
        (Or.inl hroom)
      have hrest := outputLoop_count_zero eng t rest (outputStep eng pubs j).1
        hne
      exact ⟨by omega, by omega⟩
    · have hrest1 : List.countP (fun i =>
          decide (eng.output_id i = some t)) rest = 1 := by
        rw [List.countP_cons] at honce
        simp only [hj, decide_False, if_neg] at honce
        simpa using honce
      have hstep := outputStep_count_other eng pubs j t hj
      have hcap' : (outputStep eng pubs j).1.countP
          OrbPublication.is_valid + rest.length ≤
          (outputStep eng pubs j).1.length := by
        have h1 := outputStep_pubs_countP eng pubs j
        have h2 := outputStep_pubs_length eng pubs j
        simp only [List.length_cons] at hcap
        omega
      have hrest := ih (outputStep eng pubs j).1 hrest1 hcap'
      exact ⟨by omega, by omega⟩

lemma outputLoop_mismatch_zero (eng : RustOutputs) (t : OrbId) (b : Nat)
    (hrd : eng.read_result t = some b) (hbe : ¬ b = eng.o_size t) :
    ∀ (idxs : List Nat) (pubs : List OrbPublication),
      List.countP (isPublishFor t) (outputLoop eng pubs idxs).2 = 0 ∧
      List.countP (isCreateFor t) (outputLoop eng pubs idxs).2 = 0 := by
  intro idxs
  induction idxs with
  | nil => simp [outputLoop]
  | cons j rest ih =>
    intro pubs
    simp only [outputLoop, List.countP_append]
    have hstep := outputStep_mismatch_zero eng pubs j t b hrd hbe
    have hrest := ih (outputStep eng pubs j).1
    exact ⟨by omega, by omega⟩

lemma outputLoop_mismatch_err (eng : RustOutputs) (t : OrbId) (b : Nat)
    (hup : eng.has_update t = some true)
    (hsz : ¬ MAX_MESSAGE_SIZE < eng.o_size t)
    (hrd : eng.read_result t = some b) (hbe : ¬ b = eng.o_size t) :
    ∀ (idxs : List Nat) (pubs : List OrbPublication),
      (∃ i ∈ idxs, eng.output_id i = some t) →
      Event.errSizeMismatch t ∈ (outputLoop eng pubs idxs).2 := by
  intro idxs
  induction idxs with
  | nil => simp
  | cons j rest ih =>
    intro pubs hex
    simp only [outputLoop]
    by_cases hj : eng.output_id j = some t
    · exact List.mem_append_left _
        (outputStep_mismatch_err eng pubs j t b hj hup hsz hrd hbe)
    · have hex' : ∃ i ∈ rest, eng.output_id i = some t := by
        rcases hex with ⟨i, hi, hit⟩
        rcases List.mem_cons.1 hi with rfl | hi
        · exact absurd hit hj
        · exact ⟨i, hi, hit⟩
      exact List.mem_append_right _ (ih (outputStep eng pubs j).1 hex')

lemma outputLoop_oversize_zero (eng : RustOutputs) (t : OrbId)
    (hsz : MAX_MESSAGE_SIZE < eng.o_size t) :
    ∀ (idxs : List Nat) (pubs : List OrbPublication),
      List.countP (isReadFor t) (outputLoop eng pubs idxs).2 = 0 ∧
      List.countP (isPublishFor t) (outputLoop eng pubs idxs).2 = 0 ∧
      List.countP (isCreateFor t) (outputLoop eng pubs idxs).2 = 0 := by
  intro idxs
  induction idxs with
  | nil => simp [outputLoop]
  | cons j rest ih =>
    intro pubs
    simp only [outputLoop, List.countP_append]
    have hstep := outputStep_oversize_zero eng pubs j t hsz
    have hrest := ih (outputStep eng pubs j).1
    exact ⟨by omega, by omega, by omega⟩

lemma outputLoop_oversize_err (eng : RustOutputs) (t : OrbId)
    (hup : eng.has_update t = some true)
    (hsz : MAX_MESSAGE_SIZE < eng.o_size t) :
    ∀ (idxs : List Nat) (pubs : List OrbPublication),
      (∃ i ∈ idxs, eng.output_id i = some t) →
      Event.errOversize t ∈ (outputLoop eng pubs idxs).2 := by
  intro idxs
  induction idxs with
  | nil => simp
  | cons j rest ih =>
    intro pubs hex
    simp only [outputLoop]
    by_cases hj : eng.output_id j = some t
    · exact List.mem_append_left _
        (outputStep_oversize_err eng pubs j t hj hup hsz)
    · have hex' : ∃ i ∈ rest, eng.output_id i = some t := by
        rcases hex with ⟨i, hi, hit⟩
        rcases List.mem_cons.1 hi with rfl | hi
        · exact absurd hit hj
        · exact ⟨i, hi, hit⟩
      exact List.mem_append_right _ (ih (outputStep eng pubs j).1 hex')

namespace Pool

variable {α : Type} (valid : α → Bool) (idOf : α → Option OrbId) (mk : OrbId → α) (inval : α)

lemma validIds_replicate_invalid (hinv : valid inval = false) (k : Nat) :
    validIds valid idOf (List.replicate k inval) = [] := by
  induction k with
  | zero => rfl
  | succ k ih =>
    rw [List.replicate_succ]
    simp only [validIds] at ih ⊢
    rw [List.filterMap_cons]
    simp only [hinv, Bool.false_eq_true, if_false]
    exact ih

/-- Uniqueness corollary for a pool started from the all-invalid array:
after any sequence of `ensure` calls over at most `MAX_MESSAGES` distinct
topics whose creations succeed, the valid bindings are exactly the distinct
requested topics, with no duplicates. -/
theorem ensureAll_uniqueness (hinv : valid inval = false)
    (calls : List OrbId)
    (hmk : ∀ t ∈ calls, valid (mk t) = true ∧ idOf (mk t) = some t)
    (hM : calls.toFinset.card ≤ MAX_MESSAGES) :
    (validIds valid idOf (ensureAll valid idOf mk inval
      (List.replicate MAX_MESSAGES inval) calls)).Nodup ∧
    (∀ x, x ∈ validIds valid idOf (ensureAll valid idOf mk inval
      (List.replicate MAX_MESSAGES inval) calls) ↔ x ∈ calls) ∧
    (validIds valid idOf (ensureAll valid idOf mk inval
      (List.replicate MAX_MESSAGES inval) calls)).length =
      calls.toFinset.card := by
  have hempty := validIds_replicate_invalid valid idOf inval hinv
    MAX_MESSAGES
  have hinvar := ensureAll_invariant valid idOf mk inval calls []
    (List.replicate MAX_MESSAGES inval) hmk
    (by
      intro s hs hv
      rw [List.eq_of_mem_replicate hs] at hv
      rw [hinv] at hv
      exact absurd hv (by simp))
    (List.length_replicate _ _)
    (by simp [hempty])
    (by intro x; rw [hempty])
    (by simpa using hM)
  refine ⟨hinvar.2.2.1, ?_, ?_⟩
  · intro x
    rw [hinvar.2.2.2 x]
    simp
  · have hmem : ∀ x, x ∈ validIds valid idOf (ensureAll valid idOf mk inval
        (List.replicate MAX_MESSAGES inval) calls) ↔ x ∈ calls := by
      intro x
      rw [hinvar.2.2.2 x]
      simp
    have hfs : (validIds valid idOf (ensureAll valid idOf mk inval
        (List.replicate MAX_MESSAGES inval) calls)).toFinset =
        calls.toFinset := by
      ext x
      simp only [List.mem_toFinset]
      exact hmem x
    rw [← hfs]
    exact (List.toFinset_card_of_nodup hinvar.2.2.1).symm

end Pool

/-- Input pool produced by a sequence of `ensure_subscription` calls starting
from the default-constructed array `subscriptions_[MAX_MESSAGES]`. -/
def ensureSubsAll (bus : OrbBus) (calls : List OrbId) :
    List OrbSubscription :=
  Pool.ensureAll OrbSubscription.is_valid OrbSubscription.id_
    (mk_subscription bus) {} (List.replicate MAX_MESSAGES {}) calls

/-- Output pool produced by a sequence of `ensure_publication` calls starting
from the default-constructed array `publications_[MAX_MESSAGES]`. -/
def ensurePubsAll (advOk : OrbId → Bool) (calls : List OrbId) :
    List OrbPublication :=
  Pool.ensureAll OrbPublication.is_valid OrbPublication.id_
    (mk_publication advOk) {} (List.replicate MAX_MESSAGES {}) calls

/-- C1: the claim says the cycle driver sleeps for `max(0, interval -
elapsed)`, so an overrun cycle gets a zero sleep and restarts immediately.
The code (line 429) instead computes `LOOP_INTERVAL_US - elapsed` in
wrapping unsigned 64-bit arithmetic with no clamping: one microsecond of
overrun yields a sleep argument of `2^64 - 1` microseconds, not `0`
(the in-budget case behaves as specified, e.g. elapsed = 9999 sleeps 1). -/
theorem c1_sleep_overrun_wraps :
    sleep_arg_us 10001 = 2 ^ 64 - 1 ∧ sleep_arg_us 10001 ≠ 0 ∧
    sleep_arg_us 9999 = 1 := by
  refine ⟨rfl, ?_, rfl⟩
  intro h
  have : (18446744073709551615 : Nat) = 0 := by
    rw [← h]
    rfl
  simp at this

/-- C8: if `orb_subscribe` fails (negative handle), the constructed binding
is invalid, and every subsequent use — `check_updated` or `copy_data`, under
any later bus condition and update state — returns `false` without touching
the bus (no bus call events, update flags unchanged). -/
theorem c8_failed_subscription_noop (bus : OrbBus) (t : OrbId)
    (h : bus.subResult t < 0) :
    (mk_subscription bus t).is_valid = false ∧
    (∀ (bus' : OrbBus) (upd' : UpdFlags),
      (mk_subscription bus t).check_updated bus' upd' = (false, [])) ∧
    (∀ (bus' : OrbBus) (upd' : UpdFlags),
      (mk_subscription bus t).copy_data bus' upd' = (false, upd', [])) := by
  have hv := mk_subscription_invalid bus t h
  refine ⟨hv, ?_, ?_⟩ <;> intro bus' upd' <;>
    simp [OrbSubscription.check_updated, OrbSubscription.copy_data, hv]

theorem c8_failed_subscription_noop_witness :
    ((-1 : Int) < 0) ∧
    ((mk_subscription ⟨fun _ => -1, fun _ => true, fun _ => true⟩
        7).is_valid = false ∧
      (∀ (bus' : OrbBus) (upd' : UpdFlags),
        (mk_subscription ⟨fun _ => -1, fun _ => true, fun _ => true⟩
          7).check_updated bus' upd' = (false, [])) ∧
      (∀ (bus' : OrbBus) (upd' : UpdFlags),
        (mk_subscription ⟨fun _ => -1, fun _ => true, fun _ => true⟩
          7).copy_data bus' upd' = (false, upd', []))) :=
  ⟨by decide,
    c8_failed_subscription_noop ⟨fun _ => -1, fun _ => true, fun _ => true⟩
      7 (by decide)⟩

/-- C5: when all 16 slots of a pool hold valid bindings for topics other
than the requested one, `ensure` (for either pool) logs the capacity error,
returns the fixed default-constructed invalid sentinel, and leaves every
existing binding unchanged. -/
theorem c5_pool_exhaustion (bus : OrbBus) (advOk : OrbId → Bool)
    (fpool : List OrbSubscription) (fpubs : List OrbPublication)
    (t u : OrbId)
    (hlen : fpool.length = MAX_MESSAGES)
    (hfv : ∀ s ∈ fpool, s.is_valid = true)
    (hft : ∀ s ∈ fpool, s.id_ ≠ some t)
    (hqlen : fpubs.length = MAX_MESSAGES)
    (hgv : ∀ p ∈ fpubs, p.is_valid = true)
    (hgu : ∀ p ∈ fpubs, p.id_ ≠ some u) :
    ensure_subscription bus fpool t = (fpool, {}, [Event.errTooMany]) ∧
    ({} : OrbSubscription).is_valid = false ∧
    ensure_publication advOk fpubs u = (fpubs, {}, [Event.errTooMany]) ∧
    ({} : OrbPublication).is_valid = false :=
  ⟨Pool.ensure_exhausted _ _ _ _ fpool t hfv hft, by decide,
    Pool.ensure_exhausted _ _ _ _ fpubs u hgv hgu, by decide⟩

theorem c5_pool_exhaustion_witness :
    ((List.replicate 16 ({ id_ := some 3, handle_ := 0 } :
        OrbSubscription)).length = MAX_MESSAGES) ∧
    (ensure_subscription ⟨fun _ => 0, fun _ => true, fun _ => true⟩
        (List.replicate 16 { id_ := some 3, handle_ := 0 }) 5 =
      (List.replicate 16 { id_ := some 3, handle_ := 0 }, {},
        [Event.errTooMany]) ∧
      ({} : OrbSubscription).is_valid = false ∧
      ensure_publication (fun _ => true)
          (List.replicate 16 { id_ := some 4, advert_ok := true }) 6 =
        (List.replicate 16 { id_ := some 4, advert_ok := true }, {},
          [Event.errTooMany]) ∧
      ({} : OrbPublication).is_valid = false) :=
  ⟨by decide,
    c5_pool_exhaustion ⟨fun _ => 0, fun _ => true, fun _ => true⟩
      (fun _ => true)
      (List.replicate 16 { id_ := some 3, handle_ := 0 })
      (List.replicate 16 { id_ := some 4, advert_ok := true }) 5 6
      (by decide) (by decide) (by decide) (by decide) (by decide)
      (by decide)⟩

/-- C9: within one invocation of either relay, whatever per-topic failures
the environment produces (id-resolution failures, update-check failures,
oversize skips, copy/read failures, write failures), every index in
`[0, count)` is still visited in the same cycle, for any reported count
within the asserted bound. -/
theorem c9_per_topic_failures_isolated (bus : OrbBus) (eng : RustInputs)
    (engO : RustOutputs) (upd : UpdFlags) (pool : List OrbSubscription)
    (pubs : List OrbPublication) (n m : Nat)
    (hn : eng.input_count = some n) (hn16 : n ≤ MAX_MESSAGES)
    (hm : engO.output_count = some m) (hm16 : m ≤ MAX_MESSAGES) :
    (∃ r, process_input_messages bus eng upd pool = some r ∧
      ∀ i < n, Event.visit i ∈ r.2.2) ∧
    (∃ r, process_output_messages engO pubs = some r ∧
      ∀ i < m, Event.visit i ∈ r.2) := by
  constructor
  · refine ⟨inputLoop bus eng upd pool (List.range n), ?_, ?_⟩
    · simp [process_input_messages, hn, hn16]
    · intro i hi
      exact inputLoop_visits bus eng (List.range n) upd pool i
        (List.mem_range.2 hi)
  · refine ⟨outputLoop engO pubs (List.range m), ?_, ?_⟩
    · simp [process_output_messages, hm, hm16]
    · intro i hi
      exact outputLoop_visits engO (List.range m) pubs i
        (List.mem_range.2 hi)

theorem c9_per_topic_failures_isolated_witness :
    ((⟨some 3, fun _ => none, fun _ => 0, fun _ => true⟩ :
        RustInputs).input_count = some 3) ∧
    ((∃ r, process_input_messages
        ⟨fun _ => -1, fun _ => false, fun _ => false⟩
        ⟨some 3, fun _ => none, fun _ => 0, fun _ => true⟩
        (fun _ => false) (List.replicate 16 {}) = some r ∧
        ∀ i < 3, Event.visit i ∈ r.2.2) ∧
      (∃ r, process_output_messages
        ⟨some 2, fun _ => none, fun _ => 0, fun _ => none, fun _ => none,
          fun _ => false⟩ (List.replicate 16 {}) = some r ∧
        ∀ i < 2, Event.visit i ∈ r.2)) :=
  ⟨rfl,
    c9_per_topic_failures_isolated
      ⟨fun _ => -1, fun _ => false, fun _ => false⟩
      ⟨some 3, fun _ => none, fun _ => 0, fun _ => true⟩
      ⟨some 2, fun _ => none, fun _ => 0, fun _ => none, fun _ => none,
        fun _ => false⟩
      (fun _ => false) (List.replicate 16 {}) (List.replicate 16 {}) 3 2
      rfl (by decide) rfl (by decide)⟩

/-- C3 counterexample: the claim says no reported topic count can crash the
relay, but a reported count of 17 (> MAX_MESSAGES) fails the
`assert(count <= MAX_MESSAGES)` at lines 131/206 and aborts the relay
invocation (modelled as `none`) instead of continuing. -/
theorem c3_counterexample :
    process_input_messages ⟨fun _ => 0, fun _ => true, fun _ => true⟩
      ⟨some 17, fun _ => none, fun _ => 0, fun _ => true⟩
      (fun _ => false) (List.replicate 16 {}) = none ∧
    process_output_messages
      ⟨some 17, fun _ => none, fun _ => 0, fun _ => none, fun _ => none,
        fun _ => true⟩ (List.replicate 16 {}) = none :=
  ⟨rfl, rfl⟩

/-- C3 amended: exceeding the 16-binding pool capacity with distinct topics
is non-fatal — the `ensure` call returns the invalid sentinel, logs the
capacity error, leaves the pool unchanged, and the relay keeps visiting
every reported index — provided the reported topic count itself is at most
16; a reported count above 16 instead fails the `assert` and aborts the
relay invocation. -/
theorem c3_capacity_nonfatal_within_assert_bound (bus : OrbBus)
    (eng : RustInputs) (engO : RustOutputs) (upd : UpdFlags)
    (pool : List OrbSubscription) (pubs : List OrbPublication)
    (fpool : List OrbSubscription) (fpubs : List OrbPublication)
    (t u : OrbId) (n m : Nat)
    (hn : eng.input_count = some n) (hm : engO.output_count = some m)
    (hfv : ∀ s ∈ fpool, s.is_valid = true)
    (hft : ∀ s ∈ fpool, s.id_ ≠ some t)
    (hgv : ∀ p ∈ fpubs, p.is_valid = true)
    (hgu : ∀ p ∈ fpubs, p.id_ ≠ some u) :
    (n ≤ MAX_MESSAGES →
      ∃ r, process_input_messages bus eng upd pool = some r ∧
        ∀ i < n, Event.visit i ∈ r.2.2) ∧
    (m ≤ MAX_MESSAGES →
      ∃ r, process_output_messages engO pubs = some r ∧
        ∀ i < m, Event.visit i ∈ r.2) ∧
    (MAX_MESSAGES < n → process_input_messages bus eng upd pool = none) ∧
    (MAX_MESSAGES < m → process_output_messages engO pubs = none) ∧
    ensure_subscription bus fpool t = (fpool, {}, [Event.errTooMany]) ∧
    ensure_publication engO.advertise_ok fpubs u =
      (fpubs, {}, [Event.errTooMany]) := by
  refine ⟨?_, ?_, ?_, ?_, ?_, ?_⟩
  · intro hn16
    refine ⟨inputLoop bus eng upd pool (List.range n), ?_, ?_⟩
    · simp [process_input_messages, hn, hn16]
    · intro i hi
      exact inputLoop_visits bus eng (List.range n) upd pool i
        (List.mem_range.2 hi)
  · intro hm16
    refine ⟨outputLoop engO pubs (List.range m), ?_, ?_⟩
    · simp [process_output_messages, hm, hm16]
    · intro i hi
      exact outputLoop_visits engO (List.range m) pubs i
        (List.mem_range.2 hi)
  · intro hgt
    simp [process_input_messages, hn, Nat.not_le.2 hgt]
  · intro hgt
    simp [process_output_messages, hm, Nat.not_le.2 hgt]
  · exact Pool.ensure_exhausted _ _ _ _ fpool t hfv hft
  · exact Pool.ensure_exhausted _ _ _ _ fpubs u hgv hgu

theorem c3_capacity_nonfatal_witness :
    ((⟨some 17, fun _ => none, fun _ => 0, fun _ => true⟩ :
        RustInputs).input_count = some 17) ∧
    ((17 ≤ MAX_MESSAGES →
      ∃ r, process_input_messages
          ⟨fun _ => 0, fun _ => true, fun _ => true⟩
          ⟨some 17, fun _ => none, fun _ => 0, fun _ => true⟩
          (fun _ => false) (List.replicate 16 {}) = some r ∧
        ∀ i < 17, Event.visit i ∈ r.2.2) ∧
    (2 ≤ MAX_MESSAGES →
      ∃ r, process_output_messages
          ⟨some 2, fun _ => none, fun _ => 0, fun _ => none, fun _ => none,
            fun _ => true⟩ (List.replicate 16 {}) = some r ∧
        ∀ i < 2, Event.visit i ∈ r.2) ∧
    (MAX_MESSAGES < 17 →
      process_input_messages ⟨fun _ => 0, fun _ => true, fun _ => true⟩
        ⟨some 17, fun _ => none, fun _ => 0, fun _ => true⟩
        (fun _ => false) (List.replicate 16 {}) = none) ∧
    (MAX_MESSAGES < 2 →
      process_output_messages
        ⟨some 2, fun _ => none, fun _ => 0, fun _ => none, fun _ => none,
          fun _ => true⟩ (List.replicate 16 {}) = none) ∧
    ensure_subscription ⟨fun _ => 0, fun _ => true, fun _ => true⟩
        (List.replicate 16 { id_ := some 3, handle_ := 0 }) 5 =
      (List.replicate 16 { id_ := some 3, handle_ := 0 }, {},
        [Event.errTooMany]) ∧
    ensure_publication
        (⟨some 2, fun _ => none, fun _ => 0, fun _ => none, fun _ => none,
          fun _ => true⟩ : RustOutputs).advertise_ok
        (List.replicate 16 { id_ := some 4, advert_ok := true }) 6 =
      (List.replicate 16 { id_ := some 4, advert_ok := true }, {},
        [Event.errTooMany])) :=
  ⟨rfl,
    c3_capacity_nonfatal_within_assert_bound
      ⟨fun _ => 0, fun _ => true, fun _ => true⟩
      ⟨some 17, fun _ => none, fun _ => 0, fun _ => true⟩
      ⟨some 2, fun _ => none, fun _ => 0, fun _ => none, fun _ => none,
        fun _ => true⟩
      (fun _ => false) (List.replicate 16 {}) (List.replicate 16 {})
      (List.replicate 16 { id_ := some 3, handle_ := 0 })
      (List.replicate 16 { id_ := some 4, advert_ok := true }) 5 6 17 2
      rfl rfl (by decide) (by decide) (by decide) (by decide)⟩

/-- C4: after any sequence of `ensure` calls drawn from at most 16 distinct
topics (each subscription and advertisement succeeding), both pools hold
exactly one valid binding per distinct requested topic — the bound topics
are duplicate-free, are exactly the requested ones, and number exactly the
count of distinct topics; moreover after every prefix of the call sequence
the bound topics are duplicate-free, so at no point do two bindings for one
topic coexist. -/
theorem c4_pool_uniqueness (bus : OrbBus) (advOk : OrbId → Bool)
    (calls : List OrbId)
    (hM : calls.toFinset.card ≤ MAX_MESSAGES)
    (hsub : ∀ t ∈ calls, 0 ≤ bus.subResult t)
    (hadv : ∀ t ∈ calls, advOk t = true) :
    ((subValidIds (ensureSubsAll bus calls)).Nodup ∧
      (∀ x, x ∈ subValidIds (ensureSubsAll bus calls) ↔ x ∈ calls) ∧
      (subValidIds (ensureSubsAll bus calls)).length =
        calls.toFinset.card ∧
      (∀ l₁ l₂, calls = l₁ ++ l₂ →
        (subValidIds (ensureSubsAll bus l₁)).Nodup)) ∧
    ((pubValidIds (ensurePubsAll advOk calls)).Nodup ∧
      (∀ x, x ∈ pubValidIds (ensurePubsAll advOk calls) ↔ x ∈ calls) ∧
      (pubValidIds (ensurePubsAll advOk calls)).length =
        calls.toFinset.card ∧
      (∀ l₁ l₂, calls = l₁ ++ l₂ →
        (pubValidIds (ensurePubsAll advOk l₁)).Nodup)) := by
  have hmkS : ∀ l : List OrbId, (∀ t ∈ l, 0 ≤ bus.subResult t) →
      ∀ t ∈ l, (mk_subscription bus t).is_valid = true ∧
        (mk_subscription bus t).id_ = some t :=
    fun l hl t ht => ⟨mk_subscription_is_valid bus t (hl t ht), rfl⟩
  have hmkP : ∀ l : List OrbId, (∀ t ∈ l, advOk t = true) →
      ∀ t ∈ l, (mk_publication advOk t).is_valid = true ∧
        (mk_publication advOk t).id_ = some t :=
    fun l hl t ht =>
      ⟨by simp [mk_publication, OrbPublication.is_valid, hl t ht], rfl⟩
  have hprefixcard : ∀ (l₁ l₂ : List OrbId), calls = l₁ ++ l₂ →
      l₁.toFinset.card ≤ MAX_MESSAGES := by
    intro l₁ l₂ he
    refine le_trans (Finset.card_le_card ?_) hM
    intro x hx
    rw [List.mem_toFinset] at hx ⊢
    rw [he, List.mem_append]
    exact Or.inl hx
  constructor
  · have hmain := Pool.ensureAll_uniqueness OrbSubscription.is_valid
      OrbSubscription.id_ (mk_subscription bus) {} (by decide) calls
      (hmkS calls hsub) hM
    refine ⟨hmain.1, hmain.2.1, hmain.2.2, ?_⟩
    intro l₁ l₂ he
    have hsub1 : ∀ t ∈ l₁, 0 ≤ bus.subResult t := by
      intro t ht
      exact hsub t (by rw [he, List.mem_append]; exact Or.inl ht)
    exact (Pool.ensureAll_uniqueness OrbSubscription.is_valid
      OrbSubscription.id_ (mk_subscription bus) {} (by decide) l₁
      (hmkS l₁ hsub1) (hprefixcard l₁ l₂ he)).1
  · have hmain := Pool.ensureAll_uniqueness OrbPublication.is_valid
      OrbPublication.id_ (mk_publication advOk) {} (by decide) calls
      (hmkP calls hadv) hM
    refine ⟨hmain.1, hmain.2.1, hmain.2.2, ?_⟩
    intro l₁ l₂ he
    have hadv1 : ∀ t ∈ l₁, advOk t = true := by
      intro t ht
      exact hadv t (by rw [he, List.mem_append]; exact Or.inl ht)
    exact (Pool.ensureAll_uniqueness OrbPublication.is_valid
      OrbPublication.id_ (mk_publication advOk) {} (by decide) l₁
      (hmkP l₁ hadv1) (hprefixcard l₁ l₂ he)).1

theorem c4_pool_uniqueness_witness :
    (([3, 4, 3] : List OrbId).toFinset.card ≤ MAX_MESSAGES) ∧
    (((subValidIds (ensureSubsAll
          ⟨fun _ => 0, fun _ => true, fun _ => true⟩ [3, 4, 3])).Nodup ∧
      (∀ x, x ∈ subValidIds (ensureSubsAll
          ⟨fun _ => 0, fun _ => true, fun _ => true⟩ [3, 4, 3]) ↔
        x ∈ ([3, 4, 3] : List OrbId)) ∧
      (subValidIds (ensureSubsAll
          ⟨fun _ => 0, fun _ => true, fun _ => true⟩ [3, 4, 3])).length =
        ([3, 4, 3] : List OrbId).toFinset.card ∧
      (∀ l₁ l₂, ([3, 4, 3] : List OrbId) = l₁ ++ l₂ →
        (subValidIds (ensureSubsAll
          ⟨fun _ => 0, fun _ => true, fun _ => true⟩ l₁)).Nodup)) ∧
    ((pubValidIds (ensurePubsAll (fun _ => true) [3, 4, 3])).Nodup ∧
      (∀ x, x ∈ pubValidIds (ensurePubsAll (fun _ => true) [3, 4, 3]) ↔
        x ∈ ([3, 4, 3] : List OrbId)) ∧
      (pubValidIds (ensurePubsAll (fun _ => true) [3, 4, 3])).length =
        ([3, 4, 3] : List OrbId).toFinset.card ∧
      (∀ l₁ l₂, ([3, 4, 3] : List OrbId) = l₁ ++ l₂ →
        (pubValidIds (ensurePubsAll (fun _ => true) l₁)).Nodup))) :=
  ⟨by decide,
    c4_pool_uniqueness ⟨fun _ => 0, fun _ => true, fun _ => true⟩
      (fun _ => true) [3, 4, 3] (by decide) (by decide) (by decide)⟩

/-- C2: for a topic whose declared size fits the buffer and which has a
pending update at the start of a cycle (bus flag set on the input side,
engine has-update flag on the output side), exactly one copy-and-transfer
attempt occurs for that topic in the cycle: one `orb_copy` followed by one
`rust_write_input_message` on the input path, and one
`rust_read_output_message` followed by one `orb_publish` on the output path
— never zero and never more than one — given a well-behaved bus/engine for
that topic, the topic reported at exactly one index, and pool capacity left
for the cycle's topics. -/
theorem c2_exactly_one_transfer (bus : OrbBus) (eng : RustInputs)
    (engO : RustOutputs) (upd : UpdFlags) (pool : List OrbSubscription)
    (pubs : List OrbPublication) (t u : OrbId) (n m : Nat)
    (hn : eng.input_count = some n) (hn16 : n ≤ MAX_MESSAGES)
    (hcap : pool.countP OrbSubscription.is_valid + n ≤ pool.length)
    (honce : List.countP (fun i => decide (eng.input_id i = some t))
      (List.range n) = 1)
    (hupd : upd t = true) (hchk : bus.checkOk t = true)
    (hcpy : bus.copyOk t = true) (hsub : 0 ≤ bus.subResult t)
    (hsz : eng.o_size t ≤ MAX_MESSAGE_SIZE)
    (hm : engO.output_count = some m) (hm16 : m ≤ MAX_MESSAGES)
    (hqcap : pubs.countP OrbPublication.is_valid + m ≤ pubs.length)
    (honceO : List.countP (fun i => decide (engO.output_id i = some u))
      (List.range m) = 1)
    (hhu : engO.has_update u = some true)
    (hszO : engO.o_size u ≤ MAX_MESSAGE_SIZE)
    (hrd : engO.read_result u = some (engO.o_size u))
    (hadv : engO.advertise_ok u = true) :
    (∃ r, process_input_messages bus eng upd pool = some r ∧
      List.countP (isCopyFor t) r.2.2 = 1 ∧
      List.countP (isWriteFor t) r.2.2 = 1) ∧
    (∃ r, process_output_messages engO pubs = some r ∧
      List.countP (isReadFor u) r.2 = 1 ∧
      List.countP (isPublishFor u) r.2 = 1) := by
  constructor
  · refine ⟨inputLoop bus eng upd pool (List.range n), ?_, ?_⟩
    · simp [process_input_messages, hn, hn16]
    · exact inputLoop_once bus eng t hchk hcpy hsub (not_lt.2 hsz)
        (List.range n) upd pool honce
        (by rw [List.length_range]; exact hcap) hupd
  · refine ⟨outputLoop engO pubs (List.range m), ?_, ?_⟩
    · simp [process_output_messages, hm, hm16]
    · exact outputLoop_once engO u hhu (not_lt.2 hszO) hrd hadv
        (List.range m) pubs honceO
        (by rw [List.length_range]; exact hqcap)

theorem c2_exactly_one_transfer_witness :
    ((⟨some 1, fun _ => some 5, fun _ => 8, fun _ => true⟩ :
        RustInputs).input_count = some 1) ∧
    ((∃ r, process_input_messages
        ⟨fun _ => 0, fun _ => true, fun _ => true⟩
        ⟨some 1, fun _ => some 5, fun _ => 8, fun _ => true⟩
        (fun _ => true) (List.replicate 16 {}) = some r ∧
        List.countP (isCopyFor 5) r.2.2 = 1 ∧
        List.countP (isWriteFor 5) r.2.2 = 1) ∧
      (∃ r, process_output_messages
        ⟨some 1, fun _ => some 7, fun _ => 4, fun _ => some true,
          fun _ => some 4, fun _ => true⟩ (List.replicate 16 {}) = some r ∧
        List.countP (isReadFor 7) r.2 = 1 ∧
        List.countP (isPublishFor 7) r.2 = 1)) :=
  ⟨rfl,
    c2_exactly_one_transfer ⟨fun _ => 0, fun _ => true, fun _ => true⟩
      ⟨some 1, fun _ => some 5, fun _ => 8, fun _ => true⟩
      ⟨some 1, fun _ => some 7, fun _ => 4, fun _ => some true,
        fun _ => some 4, fun _ => true⟩
      (fun _ => true) (List.replicate 16 {}) (List.replicate 16 {}) 5 7 1 1
      rfl (by decide) (by decide) (by decide) rfl rfl rfl (by decide)
      (by decide) rfl (by decide) (by decide) (by decide) rfl (by decide)
      rfl rfl⟩

/-- C6: for a topic whose declared size exceeds the 1024-byte buffer, the
relays never copy its payload: the input relay performs no `orb_copy` and
no `rust_write_input_message` for it, the output relay performs no
`rust_read_output_message` and no `orb_publish` for it, and when the topic
is reported with a pending update (and its binding is obtainable) the
oversize error is logged on the offending side. -/
theorem c6_oversize_never_copied (bus : OrbBus) (eng : RustInputs)
    (engO : RustOutputs) (upd : UpdFlags) (pool : List OrbSubscription)
    (pubs : List OrbPublication) (t u : OrbId) (n m i j : Nat)
    (hsz : MAX_MESSAGE_SIZE < eng.o_size t)
    (hn : eng.input_count = some n) (hn16 : n ≤ MAX_MESSAGES)
    (hi : i < n) (hit : eng.input_id i = some t)
    (hcap : pool.countP OrbSubscription.is_valid + n ≤ pool.length)
    (hupd : upd t = true) (hchk : bus.checkOk t = true)
    (hsub : 0 ≤ bus.subResult t)
    (hszO : MAX_MESSAGE_SIZE < engO.o_size u)
    (hm : engO.output_count = some m) (hm16 : m ≤ MAX_MESSAGES)
    (hj : j < m) (hjt : engO.output_id j = some u)
    (hhu : engO.has_update u = some true) :
    (∃ r, process_input_messages bus eng upd pool = some r ∧
      List.countP (isCopyFor t) r.2.2 = 0 ∧
      List.countP (isWriteFor t) r.2.2 = 0 ∧
      Event.errOversize t ∈ r.2.2) ∧
    (∃ r, process_output_messages engO pubs = some r ∧
      List.countP (isReadFor u) r.2 = 0 ∧
      List.countP (isPublishFor u) r.2 = 0 ∧
      Event.errOversize u ∈ r.2) := by
  constructor
  · refine ⟨inputLoop bus eng upd pool (List.range n), ?_, ?_, ?_, ?_⟩
    · simp [process_input_messages, hn, hn16]
    · exact (inputLoop_oversize_zero bus eng t hsz (List.range n) upd pool).1
    · exact (inputLoop_oversize_zero bus eng t hsz (List.range n) upd pool).2
    · exact inputLoop_oversize_err bus eng t hsub hchk hsz (List.range n)
        upd pool ⟨i, List.mem_range.2 hi, hit⟩
        (by rw [List.length_range]; exact hcap) hupd
  · refine ⟨outputLoop engO pubs (List.range m), ?_, ?_, ?_, ?_⟩
    · simp [process_output_messages, hm, hm16]
    · exact (outputLoop_oversize_zero engO u hszO (List.range m) pubs).1
    · exact (outputLoop_oversize_zero engO u hszO (List.range m) pubs).2.1
    · exact outputLoop_oversize_err engO u hhu hszO (List.range m) pubs
        ⟨j, List.mem_range.2 hj, hjt⟩

theorem c6_oversize_never_copied_witness :
    (MAX_MESSAGE_SIZE < (⟨some 1, fun _ => some 5, fun _ => 2000,
        fun _ => true⟩ : RustInputs).o_size 5) ∧
    ((∃ r, process_input_messages
        ⟨fun _ => 0, fun _ => true, fun _ => true⟩
        ⟨some 1, fun _ => some 5, fun _ => 2000, fun _ => true⟩
        (fun _ => true) (List.replicate 16 {}) = some r ∧
        List.countP (isCopyFor 5) r.2.2 = 0 ∧
        List.countP (isWriteFor 5) r.2.2 = 0 ∧
        Event.errOversize 5 ∈ r.2.2) ∧
      (∃ r, process_output_messages
        ⟨some 1, fun _ => some 7, fun _ => 2000, fun _ => some true,
          fun _ => some 2000, fun _ => true⟩
        (List.replicate 16 {}) = some r ∧
        List.countP (isReadFor 7) r.2 = 0 ∧
        List.countP (isPublishFor 7) r.2 = 0 ∧
        Event.errOversize 7 ∈ r.2)) :=
  ⟨by decide,
    c6_oversize_never_copied ⟨fun _ => 0, fun _ => true, fun _ => true⟩
      ⟨some 1, fun _ => some 5, fun _ => 2000, fun _ => true⟩
      ⟨some 1, fun _ => some 7, fun _ => 2000, fun _ => some true,
        fun _ => some 2000, fun _ => true⟩
      (fun _ => true) (List.replicate 16 {}) (List.replicate 16 {}) 5 7 1 1
      0 0 (by decide) (by decide) (by decide) (by decide) (by decide)
      (by decide) (by decide) (by decide) (by decide) (by decide)
      (by decide) (by decide) (by decide) (by decide) (by decide)⟩

/-- C7: in the output relay, when `rust_read_output_message` succeeds but
returns a byte count different from the topic's declared size, the
size-mismatch error is logged and neither an `orb_publish` call nor an
advertisement (binding creation) occurs for that topic in that cycle. -/
theorem c7_size_mismatch_no_publish (engO : RustOutputs)
    (pubs : List OrbPublication) (u : OrbId) (m j b : Nat)
    (hm : engO.output_count = some m) (hm16 : m ≤ MAX_MESSAGES)
    (hj : j < m) (hjt : engO.output_id j = some u)
    (hhu : engO.has_update u = some true)
    (hszO : ¬ MAX_MESSAGE_SIZE < engO.o_size u)
    (hrd : engO.read_result u = some b) (hbe : ¬ b = engO.o_size u) :
    ∃ r, process_output_messages engO pubs = some r ∧
      Event.errSizeMismatch u ∈ r.2 ∧
      List.countP (isPublishFor u) r.2 = 0 ∧
      List.countP (isCreateFor u) r.2 = 0 := by
  refine ⟨outputLoop engO pubs (List.range m), ?_, ?_, ?_, ?_⟩
  · simp [process_output_messages, hm, hm16]
  · exact outputLoop_mismatch_err engO u b hhu hszO hrd hbe (List.range m)
      pubs ⟨j, List.mem_range.2 hj, hjt⟩
  · exact (outputLoop_mismatch_zero engO u b hrd hbe (List.range m) pubs).1
  · exact (outputLoop_mismatch_zero engO u b hrd hbe (List.range m) pubs).2

theorem c7_size_mismatch_no_publish_witness :
    ((⟨some 1, fun _ => some 7, fun _ => 8, fun _ => some true,
        fun _ => some 6, fun _ => true⟩ :
          RustOutputs).read_result 7 = some 6) ∧
    (∃ r, process_output_messages
        ⟨some 1, fun _ => some 7, fun _ => 8, fun _ => some true,
          fun _ => some 6, fun _ => true⟩ (List.replicate 16 {}) = some r ∧
      Event.errSizeMismatch 7 ∈ r.2 ∧
      List.countP (isPublishFor 7) r.2 = 0 ∧
      List.countP (isCreateFor 7) r.2 = 0) :=
  ⟨rfl,
    c7_size_mismatch_no_publish
      ⟨some 1, fun _ => some 7, fun _ => 8, fun _ => some true,
        fun _ => some 6, fun _ => true⟩
      (List.replicate 16 {}) 7 1 0 6 rfl (by decide) (by decide) rfl rfl
      (by decide) rfl (by decide)⟩

/-- C10: in the input relay the subscription is ensured before the size
validation, so a reported topic with declared size above the buffer
capacity still causes a bus subscription to be created and a pool slot to
be consumed (its topic ends up bound in the pool), even though no payload
is ever copied and no engine write occurs for it. -/
theorem c10_oversize_still_consumes_slot (bus : OrbBus) (eng : RustInputs)
    (upd : UpdFlags) (t : OrbId) (n i : Nat)
    (hn : eng.input_count = some n) (hn16 : n ≤ MAX_MESSAGES)
    (hi : i < n) (hit : eng.input_id i = some t)
    (hsz : MAX_MESSAGE_SIZE < eng.o_size t)
    (hsub : 0 ≤ bus.subResult t) :
    ∃ r, process_input_messages bus eng upd
        (List.replicate MAX_MESSAGES {}) = some r ∧
      Event.create t ∈ r.2.2 ∧
      t ∈ subValidIds r.2.1 ∧
      List.countP (isCopyFor t) r.2.2 = 0 ∧
      List.countP (isWriteFor t) r.2.2 = 0 := by
  have hc10 := inputLoop_c10 bus eng t hsub (List.range n) upd
    (List.replicate MAX_MESSAGES {})
    ⟨i, List.mem_range.2 hi, hit⟩
    (by
      rw [List.length_range, List.length_replicate]
      have : (List.replicate MAX_MESSAGES
          ({} : OrbSubscription)).countP OrbSubscription.is_valid = 0 := by
        decide
      rw [this]
      omega)
    (by
      have he : subValidIds (List.replicate MAX_MESSAGES
          ({} : OrbSubscription)) = [] := rfl
      rw [he]
      exact List.not_mem_nil t)
  refine ⟨inputLoop bus eng upd (List.replicate MAX_MESSAGES {})
      (List.range n), ?_, hc10.2, hc10.1, ?_, ?_⟩
  · simp [process_input_messages, hn, hn16]
  · exact (inputLoop_oversize_zero bus eng t hsz (List.range n) upd _).1
  · exact (inputLoop_oversize_zero bus eng t hsz (List.range n) upd _).2

theorem c10_oversize_still_consumes_slot_witness :
    (MAX_MESSAGE_SIZE < (⟨some 1, fun _ => some 5, fun _ => 2000,
        fun _ => true⟩ : RustInputs).o_size 5) ∧
    (∃ r, process_input_messages ⟨fun _ => 0, fun _ => true, fun _ => true⟩
        ⟨some 1, fun _ => some 5, fun _ => 2000, fun _ => true⟩
        (fun _ => true) (List.replicate MAX_MESSAGES {}) = some r ∧
      Event.create 5 ∈ r.2.2 ∧
      (5 : OrbId) ∈ subValidIds r.2.1 ∧
      List.countP (isCopyFor 5) r.2.2 = 0 ∧
      List.countP (isWriteFor 5) r.2.2 = 0) :=
  ⟨by decide,
    c10_oversize_still_consumes_slot
      ⟨fun _ => 0, fun _ => true, fun _ => true⟩
      ⟨some 1, fun _ => some 5, fun _ => 2000, fun _ => true⟩
      (fun _ => true) 5 1 0 rfl (by decide) (by decide) rfl (by decide)
      (by decide)⟩
